import Mathlib

/-!
Verification of the attendance time-accounting core of the hr-backend
repository: the time-duration codec, period bucketing, the hours
accumulator (`recomputeHours`), the check-in/check-out routes, the
auto-checkout background sweep (`forceLongSessions`) and the incidence
resolution route, shallowly embedded from `src/routes/fitxatge.js`,
`src/routes/fitxatgeEditor.js`, `src/routes/incidences.js` and the
legacy revision of the clock route.

Conventions of the embedding:
 - a calendar date (`YYYY-MM-DD` column value) is a `Date` record;
 - a time-of-day (`HH:mm:ss` column value) is a `Nat` count of seconds
   since midnight;
 - a JavaScript number that can be `NaN` is an `Option Int`
   (`none` = NaN); integer-valued JS arithmetic is exact on `Int`;
 - `dayjs` calendar arithmetic is reproduced with the standard civil
   calendar algorithms (`daysFromCivil`/`civilFromDays`).
-/

namespace HRBackend

/-- A calendar date, the model of a `YYYY-MM-DD` value in the `dia`
column and of a dayjs date at day granularity. -/
structure Date where
  year : Int
  month : Nat
  day : Nat
deriving DecidableEq, Repr

/-- Order key of a date: for valid dates (month 1-12, day 1-31) this is
order-isomorphic to the lexicographic order on `YYYY-MM-DD` strings,
which is what the store's `gte`/`lte` range filters on the `dia` column
compare. -/
def dateKey (d : Date) : Int :=
  d.year * 10000 + (d.month : Int) * 100 + (d.day : Int)

/-- The store's `gte`/`lte` comparison on `dia` column values. -/
def dateLE (a b : Date) : Prop := dateKey a ≤ dateKey b

instance (a b : Date) : Decidable (dateLE a b) := by
  unfold dateLE; infer_instance

/-- Leap year in the proleptic Gregorian calendar. -/
def isLeap (y : Int) : Bool :=
  y % 4 == 0 && (y % 100 != 0 || y % 400 == 0)

/-- Number of days in a month, as dayjs `endOf('month')` computes it. -/
def daysInMonth (y : Int) (m : Nat) : Nat :=
  if m = 2 then (if isLeap y then 29 else 28)
  else if m = 4 ∨ m = 6 ∨ m = 9 ∨ m = 11 then 30
  else 31

/-- A date whose fields actually denote a calendar day. -/
def validDate (d : Date) : Prop :=
  1 ≤ d.month ∧ d.month ≤ 12 ∧ 1 ≤ d.day ∧ d.day ≤ daysInMonth d.year d.month

instance (d : Date) : Decidable (validDate d) := by
  unfold validDate; infer_instance

/-- Days since 1970-01-01 of a civil date (standard civil-calendar
algorithm, the arithmetic dayjs performs internally). -/
def daysFromCivil (dt : Date) : Int :=
  let y : Int := if dt.month ≤ 2 then dt.year - 1 else dt.year
  let era : Int := Int.fdiv y 400
  let yoe : Int := y - era * 400
  let mp : Int := if dt.month ≤ 2 then (dt.month : Int) + 9 else (dt.month : Int) - 3
  let doy : Int := (153 * mp + 2) / 5 + (dt.day : Int) - 1
  let doe : Int := yoe * 365 + yoe / 4 - yoe / 100 + doy
  era * 146097 + doe - 719468

/-- Civil date of a count of days since 1970-01-01 (inverse of
`daysFromCivil`). -/
def civilFromDays (z0 : Int) : Date :=
  let z : Int := z0 + 719468
  let era : Int := Int.fdiv z 146097
  let doe : Int := z - era * 146097
  let yoe : Int := (doe - doe / 1460 + doe / 36524 - doe / 146096) / 365
  let y : Int := yoe + era * 400
  let doy : Int := doe - (365 * yoe + yoe / 4 - yoe / 100)
  let mp : Int := (5 * doy + 2) / 153
  let d : Int := doy - (153 * mp + 2) / 5 + 1
  let m : Int := if mp < 10 then mp + 3 else mp - 9
  { year := if m ≤ 2 then y + 1 else y, month := m.toNat, day := d.toNat }

/-- Add a number of days to a date. -/
def addDays (dt : Date) (k : Int) : Date :=
  civilFromDays (daysFromCivil dt + k)

/-- ISO day-of-week index of a date, 0 = Monday .. 6 = Sunday
(1970-01-01 was a Thursday). -/
def isoDow (dt : Date) : Int :=
  Int.emod (daysFromCivil dt + 3) 7

/-- Locale day-of-week index of a date, 0 = Sunday .. 6 = Saturday, the
week numbering dayjs uses for `startOf('week')` in the default `en`
locale. -/
def sunDow (dt : Date) : Int :=
  Int.emod (daysFromCivil dt + 4) 7

/-- dayjs `startOf('week')` in the default locale: the Sunday at or
before the date. -/
def sundayWeekStart (dt : Date) : Date :=
  addDays dt (-(sunDow dt))

/-- dayjs `endOf('week')` at date granularity: the Saturday at or after
the date. -/
def sundayWeekEnd (dt : Date) : Date :=
  addDays dt (6 - sunDow dt)

/-- Model of the dayjs isoWeek plugin's `.isoWeek()`: the ISO-8601
week-of-year number (1..53) — the week of the Thursday nearest to the
date, counted within the Thursday's year. Note this is only the week
NUMBER, not the (ISO year, week) pair. -/
def isoWeekNum (dt : Date) : Int :=
  let z := daysFromCivil dt
  let thu := z + (3 - isoDow dt)
  let ty := (civilFromDays thu).year
  let jan1 := daysFromCivil { year := ty, month := 1, day := 1 }
  (thu - jan1) / 7 + 1

/-- The ISO-8601 calendar week a date belongs to, identified by the pair
(ISO year, ISO week number): two dates are in the same ISO-8601 week iff
their pairs are equal. -/
def isoWeekPair (dt : Date) : Int × Int :=
  let z := daysFromCivil dt
  let thu := z + (3 - isoDow dt)
  ((civilFromDays thu).year, isoWeekNum dt)

/-- The calendar month bucket of a date, the model of the
`format('YYYY-MM')` string the accumulator compares. -/
def monthKey (dt : Date) : Int × Nat :=
  (dt.year, dt.month)

/-- Naive local timestamp, in seconds, of a date plus a time of day:
what `dayjs(dia + " " + hora)` denotes, so that dayjs `diff(_, 'second')`
is the difference of two of these. -/
def tsOf (dia : Date) (hora : Nat) : Int :=
  daysFromCivil dia * 86400 + (hora : Int)

/-! ## Time-duration codec

`timeToSeconds` / `secondsToTime` of `routes/fitxatge.js` and
`routes/fitxatgeEditor.js`. JS numbers that can be `NaN` are
`Option Int` with `none` = NaN. -/

/-- Digits of a natural number, least significant first; the `fuel`
argument only drives structural recursion (`fuel ≥ n` suffices). -/
def toRevDigits (fuel n : Nat) : List Nat :=
  match fuel with
  | 0 => []
  | fuel + 1 => if n = 0 then [] else n % 10 :: toRevDigits fuel (n / 10)

/-- Decimal rendering of a natural number: the model of JS `String(n)`
for a non-negative integer. -/
def natToString (n : Nat) : String :=
  if n = 0 then "0"
  else String.mk ((toRevDigits n n).reverse.map (fun d => Char.ofNat (48 + d)))

/-- The model of JS `String(i)` for an integer value. -/
def jsString (i : Int) : String :=
  if i < 0 then "-" ++ natToString i.natAbs else natToString i.toNat

/-- JS `padStart(2, '0')`. -/
def padStart2 (s : String) : String :=
  if s.length < 2 then String.mk (List.replicate (2 - s.length) '0') ++ s else s

/-- `secondsToTime` of `routes/fitxatge.js` / `routes/fitxatgeEditor.js`:
`Math.floor` is flooring division (`Int.fdiv`) and the JS `%` operator
keeps the dividend's sign (`Int.tmod`). -/
def secondsToTime (totalSeconds : Int) : String :=
  let hh := padStart2 (jsString (Int.fdiv totalSeconds 3600))
  let mm := padStart2 (jsString (Int.fdiv (Int.tmod totalSeconds 3600) 60))
  let ss := padStart2 (jsString (Int.tmod totalSeconds 60))
  hh ++ ":" ++ mm ++ ":" ++ ss

/-- `secondsToTime` applied to a JS number that can be NaN: formatting
NaN renders the literal text `NaN` in each field. -/
def secondsToTimeJS : Option Int → String
  | some n => secondsToTime n
  | none => "NaN:NaN:NaN"

/-- Decimal parse of a character list: all-digit strings succeed, any
other character makes the result `none`. -/
def parseNatCore : List Char → Nat → Option Nat
  | [], acc => some acc
  | c :: rest, acc =>
      if c.isDigit then parseNatCore rest (acc * 10 + (c.toNat - 48)) else none

/-- Model of the JS `Number(str)` coercion on the strings this codebase
feeds it: the empty string is 0, a string of decimal digits is its
value, anything else is NaN (`none`). -/
def jsNumber (s : String) : Option Int :=
  match parseNatCore s.data 0 with
  | some n => some (n : Int)
  | none => none

/-- JS `+` on numbers that can be NaN. -/
def jsAdd : Option Int → Option Int → Option Int
  | some a, some b => some (a + b)
  | _, _ => none

/-- JS `*` on numbers that can be NaN. -/
def jsMul : Option Int → Option Int → Option Int
  | some a, some b => some (a * b)
  | _, _ => none

/-- JS `String.prototype.split` on a single-character separator. -/
def splitOnChar (sep : Char) : List Char → List (List Char)
  | [] => [[]]
  | c :: rest =>
      match splitOnChar sep rest with
      | [] => [[]]
      | h :: t => if c = sep then [] :: h :: t else (c :: h) :: t

/-- `timeToSeconds` of `routes/fitxatge.js`: splits on `':'`, coerces
each part with `Number`, and the `[h = 0, m = 0, s = 0]` destructuring
defaults a MISSING part to 0 (a present but non-numeric part stays
NaN). -/
def timeToSeconds (timeStr : String) : Option Int :=
  let parts := (splitOnChar ':' timeStr.data).map (fun cs => jsNumber (String.mk cs))
  let h := (parts.get? 0).getD (some 0)
  let m := (parts.get? 1).getD (some 0)
  let s := (parts.get? 2).getD (some 0)
  jsAdd (jsMul h (some 3600)) (jsAdd (jsMul m (some 60)) s)

/-- `timeToSeconds` of `routes/fitxatgeEditor.js`: a falsy (empty) input
returns 0 up front; otherwise the plain `[hh, mm, ss]` destructuring
leaves a missing part `undefined`, and arithmetic on `undefined` is NaN
(`none`). -/
def timeToSecondsEditor (timeStr : String) : Option Int :=
  if timeStr = "" then some 0
  else
    let parts := (splitOnChar ':' timeStr.data).map (fun cs => jsNumber (String.mk cs))
    let hh := (parts.get? 0).getD none
    let mm := (parts.get? 1).getD none
    let ss := (parts.get? 2).getD none
    jsAdd (jsMul hh (some 3600)) (jsAdd (jsMul mm (some 60)) ss)

/-! ## Attendance ledger rows and the hours accumulator
(`recomputeHours` of `routes/fitxatgeEditor.js`). -/

/-- A row of the `fitxatge` table. -/
structure FitxRow where
  id : Nat
  employee_id : Nat
  dia : Date
  hora : Nat
  working : Bool
  active : Bool
  hores_diaries : String
  hores_setmanals : String
  hores_mensuals : String
  vacances : Int
deriving DecidableEq, Repr

/-- The loop state of `recomputeHours`: running totals, current period
markers, and the timestamp of the open check-in. -/
structure RecState where
  dailySecs : Int
  weeklySecs : Int
  monthlySecs : Int
  currentDay : Option Date
  currentWeek : Option Int
  currentMonth : Option (Int × Nat)
  lastCheckIn : Option Int
deriving DecidableEq, Repr

/-- Initial accumulator state. -/
def recInit : RecState := ⟨0, 0, 0, none, none, none, none⟩

/-- The three period-boundary resets at the top of the `recomputeHours`
loop body: each total resets to zero when the row's bucket marker
differs from the stored one (or no marker is stored yet), and the
marker is updated. -/
def resetTotals (st : RecState) (dia : Date) : RecState :=
  let st1 := if st.currentDay = some dia then st
             else { st with dailySecs := 0, currentDay := some dia }
  let st2 := if st1.currentWeek = some (isoWeekNum dia) then st1
             else { st1 with weeklySecs := 0, currentWeek := some (isoWeekNum dia) }
  if st2.currentMonth = some (monthKey dia) then st2
  else { st2 with monthlySecs := 0, currentMonth := some (monthKey dia) }

/-- The fields a `fitxatge` update statement of the recompute loop
writes: `active` and the three duration columns. -/
def setFields (r : FitxRow) (a : Bool) (d w m : String) : FitxRow :=
  { r with active := a, hores_diaries := d, hores_setmanals := w, hores_mensuals := m }

/-- Overwrite `r`'s recomputed fields with those of `o`. -/
def copyFields (r o : FitxRow) : FitxRow :=
  setFields r o.active o.hores_diaries o.hores_setmanals o.hores_mensuals

/-- The check-out branch's `diffInSeconds`: the difference to the open
check-in, floored at zero, or zero when no check-in is open. -/
def checkoutElapsed : Option Int → Int → Int
  | some t, ts => if ts - t < 0 then 0 else ts - t
  | none, _ => 0

/-- One iteration of the `recomputeHours` loop on one ledger row:
returns the next loop state and the row as persisted by the `update`
statement of that iteration. -/
def recomputeStep (st : RecState) (r : FitxRow) : RecState × FitxRow :=
  let st1 := resetTotals st r.dia
  if r.working then
    ({ st1 with lastCheckIn := some (tsOf r.dia r.hora) },
     setFields r true "00:00:00" "00:00:00" "00:00:00")
  else
    let diff := checkoutElapsed st1.lastCheckIn (tsOf r.dia r.hora)
    let st2 := { st1 with dailySecs := st1.dailySecs + diff,
                          weeklySecs := st1.weeklySecs + diff,
                          monthlySecs := st1.monthlySecs + diff,
                          lastCheckIn := none }
    (st2, setFields r false (secondsToTime st2.dailySecs)
            (secondsToTime st2.weeklySecs) (secondsToTime st2.monthlySecs))

/-- Replay of the `recomputeHours` loop over a row list from a given
state, collecting the persisted rows. -/
def recomputeGo (st : RecState) : List FitxRow → List FitxRow
  | [] => []
  | r :: rest =>
      let p := recomputeStep st r
      p.2 :: recomputeGo p.1 rest

/-- The loop state after replaying a row list. -/
def replayState (st : RecState) (rows : List FitxRow) : RecState :=
  rows.foldl (fun s r => (recomputeStep s r).1) st

/-- The rows `recomputeHours` persists for a (date, time, id)-ordered
event list, replayed from the initial state. -/
def recomputeRows (rows : List FitxRow) : List FitxRow :=
  recomputeGo recInit rows

/-- The loop state just before the `i`-th row of a replay. -/
def stateBefore (rows : List FitxRow) (i : Nat) : RecState :=
  replayState recInit (rows.take i)

/-! ## Store-level operations. -/

/-- The `order('dia').order('hora').order('id')` comparison the ledger
queries sort by; `dia` order is the column's string order (`dateKey`). -/
def ledgerLE (a b : FitxRow) : Bool :=
  decide (dateKey a.dia < dateKey b.dia ∨
    (a.dia = b.dia ∧ (a.hora < b.hora ∨ (a.hora = b.hora ∧ a.id ≤ b.id))))

/-- Insertion step of the sort. -/
def insertSorted (r : FitxRow) : List FitxRow → List FitxRow
  | [] => [r]
  | x :: xs => if ledgerLE r x then r :: x :: xs else x :: insertSorted r xs

/-- The (dia, hora, id)-ordered view of a row list, as the store
returns it. -/
def sortLedger (l : List FitxRow) : List FitxRow :=
  l.foldr insertSorted []

/-- One row as rewritten by an `update(...).eq('id', o.id)` statement
carrying `o`'s recomputed fields. -/
def updRow (o r : FitxRow) : FitxRow :=
  if r.id = o.id then copyFields r o else r

/-- An `update(...).eq('id', o.id)` statement over the whole table. -/
def applyUpdate (db : List FitxRow) (o : FitxRow) : List FitxRow :=
  db.map (updRow o)

/-- `recomputeHours(employeeId)` of `routes/fitxatgeEditor.js` at the
store level: fetch the employee's rows ordered by (dia, hora, id),
replay them, and persist each recomputed row by id. -/
def recomputeHours (e : Nat) (db : List FitxRow) : List FitxRow :=
  (recomputeRows (sortLedger (db.filter (fun r => decide (r.employee_id = e))))).foldl
    applyUpdate db

/-- An HTTP response, reduced to what the handlers produce. -/
inductive Resp where
  | ok (msg : String)
  | err (code : Nat) (msg : String)
deriving DecidableEq, Repr

/-! ## Editor routes (`routes/fitxatgeEditor.js`). Request-validation
(400) guards on missing body fields are outside the model; `newId` is
the id the store's serial sequence assigns to an inserted row. -/

/-- `POST /editor`: insert a row with zero duration fields and
`active = working`, then recompute the employee. -/
def postEditor (db : List FitxRow) (employee_id : Nat) (dia : Date) (hora : Nat)
    (working : Bool) (newId : Nat) : List FitxRow × Resp :=
  let db1 := db ++ [⟨newId, employee_id, dia, hora, working, working,
    "00:00:00", "00:00:00", "00:00:00", 0⟩]
  (recomputeHours employee_id db1, .ok "Record inserted successfully.")

/-- `PUT /editor/:id`: look up the row's owner, overwrite date, time
and working flag in place, then recompute the owner. -/
def putEditor (db : List FitxRow) (id : Nat) (dia : Date) (hora : Nat)
    (working : Bool) : List FitxRow × Resp :=
  match db.find? (fun r => decide (r.id = id)) with
  | none => (db, .err 404 "Record not found.")
  | some row =>
      let db1 := db.map (fun r =>
        if r.id = id then { r with dia := dia, hora := hora, working := working } else r)
      (recomputeHours row.employee_id db1, .ok "Record updated successfully.")

/-- `DELETE /editor/:id`: look up the row's owner, delete the row, then
recompute the owner. -/
def deleteEditor (db : List FitxRow) (id : Nat) : List FitxRow × Resp :=
  match db.find? (fun r => decide (r.id = id)) with
  | none => (db, .err 404 "Record not found.")
  | some row =>
      let db1 := db.filter (fun r => decide (r.id ≠ id))
      (recomputeHours row.employee_id db1, .ok "Record deleted successfully.")

/-! ## Live clock route and background sweep
(`routes/fitxatge.js`, plus the legacy revision of the same file). -/

/-- An employee row, reduced to the columns the clock route reads. -/
structure Employee where
  employee_id : Nat
  pin_code : String
deriving DecidableEq, Repr

/-- An incidence row as written by an insert statement (`instanceStatus`
is `none` when the insert does not set the status column). -/
structure NewIncidence where
  worker_id : Nat
  incidence_type : String
  description : Option String
  instanceStatus : Option String
  date_created : Date
deriving DecidableEq, Repr

/-- Outcome of a clock-route call: the `fitxatge` table, the incidence
rows the call inserted, and the response. -/
structure RouteResult where
  db : List FitxRow
  incs : List NewIncidence
  resp : Resp
deriving DecidableEq, Repr

/-- `order('id', descending).limit(1).maybeSingle()`: the row with the
greatest id. -/
def latestById : List FitxRow → Option FitxRow
  | [] => none
  | r :: rest =>
      match latestById rest with
      | none => some r
      | some a => if a.id < r.id then some r else some a

/-- `sumSecondsForDay` of `routes/fitxatge.js`: the latest check-out
row of that calendar day stores the running daily total; parse it (0
when the day has no check-out row yet). -/
def sumSecondsForDay (db : List FitxRow) (e : Nat) (dateStr : Date) : Option Int :=
  match latestById (db.filter (fun r =>
      decide (r.employee_id = e ∧ r.dia = dateStr ∧ r.working = false))) with
  | some row => timeToSeconds row.hores_diaries
  | none => some 0

/-- `sumSecondsForWeek` of `routes/fitxatge.js`: dayjs
`startOf('week')`/`endOf('week')` give a SUNDAY-started window in the
default locale; the latest check-out row in that window stores the
running weekly total. -/
def sumSecondsForWeek (db : List FitxRow) (e : Nat) (now : Date) : Option Int :=
  let start := sundayWeekStart now
  let endD := sundayWeekEnd now
  match latestById (db.filter (fun r =>
      decide (r.employee_id = e ∧ dateLE start r.dia ∧ dateLE r.dia endD ∧
        r.working = false))) with
  | some row => timeToSeconds row.hores_setmanals
  | none => some 0

/-- `sumSecondsForMonth` of `routes/fitxatge.js`: calendar-month window,
latest check-out row stores the running monthly total. -/
def sumSecondsForMonth (db : List FitxRow) (e : Nat) (now : Date) : Option Int :=
  let start : Date := ⟨now.year, now.month, 1⟩
  let endD : Date := ⟨now.year, now.month, daysInMonth now.year now.month⟩
  match latestById (db.filter (fun r =>
      decide (r.employee_id = e ∧ dateLE start r.dia ∧ dateLE r.dia endD ∧
        r.working = false))) with
  | some row => timeToSeconds row.hores_mensuals
  | none => some 0

/-- Session ceiling of `routes/fitxatge.js` (10 hours). -/
def MAX_SESSION_SECONDS : Int := 10 * 3600

/-- Session ceiling of the legacy clock-route revision
(12.5 * 3600 = 45000 seconds, i.e. 12 h 30 min). -/
def MAX_SESSION_SECONDS_LEGACY : Int := 45000

/-- `POST /checkin-out` of `routes/fitxatge.js`: resolve the PIN, read
the employee's latest ledger row; if absent or a check-out, insert a
check-in with zero duration fields; otherwise insert a check-out whose
duration fields are the stored per-period totals plus the raw elapsed
seconds (no clamping and no ceiling in this revision, and no call into
`recomputeHours`). -/
def postCheckinOut (employees : List Employee) (db : List FitxRow) (pin : String)
    (today : Date) (nowTime : Nat) (newId : Nat) : RouteResult :=
  match employees.find? (fun emp => decide (emp.pin_code = pin)) with
  | none => ⟨db, [], .err 404 "Invalid PIN code."⟩
  | some emp =>
    let e := emp.employee_id
    match latestById (db.filter (fun r => decide (r.employee_id = e))) with
    | none =>
        ⟨db ++ [⟨newId, e, today, nowTime, true, true,
          "00:00:00", "00:00:00", "00:00:00", 0⟩], [], .ok "Check-in successful."⟩
    | some last =>
      if last.working = false then
        ⟨db ++ [⟨newId, e, today, nowTime, true, true,
          "00:00:00", "00:00:00", "00:00:00", 0⟩], [], .ok "Check-in successful."⟩
      else
        let seconds := tsOf today nowTime - tsOf last.dia last.hora
        let dayS := sumSecondsForDay db e today
        let weekS := sumSecondsForWeek db e today
        let monthS := sumSecondsForMonth db e today
        ⟨db ++ [⟨newId, e, today, nowTime, false, false,
          secondsToTimeJS (jsAdd dayS (some seconds)),
          secondsToTimeJS (jsAdd weekS (some seconds)),
          secondsToTimeJS (jsAdd monthS (some seconds)), last.vacances⟩],
         [], .ok "Check-out successful."⟩

/-- `sumSecondsForDay` of the legacy clock-route revision: SUM of the
parsed `hores_diaries` of ALL of the employee's rows of that day (no
`working` filter). -/
def sumSecondsForDayLegacy (db : List FitxRow) (e : Nat) (dateStr : Date) : Option Int :=
  ((db.filter (fun r => decide (r.employee_id = e ∧ r.dia = dateStr))).map
    (fun r => timeToSeconds r.hores_diaries)).foldl jsAdd (some 0)

/-- `sumSecondsForWeek` of the legacy revision: sums `hores_diaries`
over the Sunday-started week window. -/
def sumSecondsForWeekLegacy (db : List FitxRow) (e : Nat) (now : Date) : Option Int :=
  let start := sundayWeekStart now
  let endD := sundayWeekEnd now
  ((db.filter (fun r =>
      decide (r.employee_id = e ∧ dateLE start r.dia ∧ dateLE r.dia endD))).map
    (fun r => timeToSeconds r.hores_diaries)).foldl jsAdd (some 0)

/-- `sumSecondsForMonth` of the legacy revision: sums `hores_diaries`
over the calendar-month window. -/
def sumSecondsForMonthLegacy (db : List FitxRow) (e : Nat) (now : Date) : Option Int :=
  let start : Date := ⟨now.year, now.month, 1⟩
  let endD : Date := ⟨now.year, now.month, daysInMonth now.year now.month⟩
  ((db.filter (fun r =>
      decide (r.employee_id = e ∧ dateLE start r.dia ∧ dateLE r.dia endD))).map
    (fun r => timeToSeconds r.hores_diaries)).foldl jsAdd (some 0)

/-- `POST /checkin-out` of the legacy clock-route revision: same shape,
but the elapsed seconds are capped at the 12 h 30 min ceiling (still no
floor at zero), the check-out is then `forced`, and a forced check-out
also inserts an incidence of type `Auto-checkout >12h30` whose status
column is NOT set by the insert (the code comments that the store
defaults it to `Open`). -/
def postCheckinOutLegacy (employees : List Employee) (db : List FitxRow) (pin : String)
    (today : Date) (nowTime : Nat) (newId : Nat) : RouteResult :=
  match employees.find? (fun emp => decide (emp.pin_code = pin)) with
  | none => ⟨db, [], .err 404 "Invalid PIN code."⟩
  | some emp =>
    let e := emp.employee_id
    match latestById (db.filter (fun r => decide (r.employee_id = e))) with
    | none =>
        ⟨db ++ [⟨newId, e, today, nowTime, true, true,
          "00:00:00", "00:00:00", "00:00:00", 0⟩], [], .ok "Check-in successful."⟩
    | some last =>
      if last.working = false then
        ⟨db ++ [⟨newId, e, today, nowTime, true, true,
          "00:00:00", "00:00:00", "00:00:00", 0⟩], [], .ok "Check-in successful."⟩
      else
        let raw := tsOf today nowTime - tsOf last.dia last.hora
        let forced := MAX_SESSION_SECONDS_LEGACY < raw
        let seconds := if MAX_SESSION_SECONDS_LEGACY < raw then MAX_SESSION_SECONDS_LEGACY else raw
        let dayS := sumSecondsForDayLegacy db e today
        let weekS := sumSecondsForWeekLegacy db e today
        let monthS := sumSecondsForMonthLegacy db e today
        ⟨db ++ [⟨newId, e, today, nowTime, false, false,
          secondsToTimeJS (jsAdd dayS (some seconds)),
          secondsToTimeJS (jsAdd weekS (some seconds)),
          secondsToTimeJS (jsAdd monthS (some seconds)), last.vacances⟩],
         if forced then [⟨e, "Auto-checkout >12h30", none, none, today⟩] else [],
         .ok (if forced then "Check-out successful (auto-capped at 12 h 30 min)."
              else "Check-out successful.")⟩

/-- A row of the `get_open_sessions` result: the latest ledger row of
an employee whose session is open, reduced to the fields the sweep
reads. -/
structure OpenSession where
  employee_id : Nat
  dia : Date
  hora : Nat
deriving DecidableEq, Repr

/-- Serial id the store assigns to the next inserted row. -/
def nextId (db : List FitxRow) : Nat :=
  1 + db.foldl (fun a r => max a r.id) 0

/-- The loop of `forceLongSessions` of `routes/fitxatge.js` over the
open sessions: a session at or under the 10-hour ceiling is skipped;
one over it gets a synthetic check-out whose duration fields are the
stored per-period totals plus exactly the ceiling, and an incidence of
type `Auto-checkout >10h (no manual checkout)` with status `Open`. -/
def forceLongSessionsGo (today : Date) (nowTime : Nat) :
    List OpenSession → List FitxRow → List NewIncidence →
      List FitxRow × List NewIncidence
  | [], db, incs => (db, incs)
  | r :: rest, db, incs =>
      let seconds := tsOf today nowTime - tsOf r.dia r.hora
      if seconds ≤ MAX_SESSION_SECONDS then
        forceLongSessionsGo today nowTime rest db incs
      else
        let dayS := sumSecondsForDay db r.employee_id today
        let weekS := sumSecondsForWeek db r.employee_id today
        let monthS := sumSecondsForMonth db r.employee_id today
        let row : FitxRow := ⟨nextId db, r.employee_id, today, nowTime, false, false,
          secondsToTimeJS (jsAdd dayS (some MAX_SESSION_SECONDS)),
          secondsToTimeJS (jsAdd weekS (some MAX_SESSION_SECONDS)),
          secondsToTimeJS (jsAdd monthS (some MAX_SESSION_SECONDS)), 0⟩
        let inc : NewIncidence := ⟨r.employee_id, "Auto-checkout >10h (no manual checkout)",
          some "Employee did not check out after 10 hours. Automatic checkout applied.",
          some "Open", today⟩
        forceLongSessionsGo today nowTime rest (db ++ [row]) (incs ++ [inc])

/-- One sweep of the auto-checkout monitor (`forceLongSessions`). -/
def forceLongSessions (today : Date) (nowTime : Nat) (sessions : List OpenSession)
    (db : List FitxRow) : List FitxRow × List NewIncidence :=
  forceLongSessionsGo today nowTime sessions db []

/-! ## Incidence register (`routes/incidences.js`). -/

/-- A stored row of the `incidences` table. -/
structure IncRow where
  incidence_id : Nat
  worker_id : Nat
  incidence_type : String
  description : Option String
  instancestatus : String
  date_created : Date
  date_resolved : Option Date
deriving DecidableEq, Repr

/-- `PUT /incidences/complete/:id`: an unconditional update of every
row matching the id to status `Completed` with resolution date today,
answered with a success message — there is no existence check in the
handler. -/
def completeIncidence (db : List IncRow) (id : Nat) (today : Date) :
    List IncRow × Resp :=
  (db.map (fun i =>
     if i.incidence_id = id then
       { i with instancestatus := "Completed", date_resolved := some today }
     else i),
   .ok ("Incidence " ++ natToString id ++ " marked as completed."))

/-! ## String containment helper (for incidence-type statements). -/

/-- `needle` occurs at the head of `hay`. -/
def matchesAt : List Char → List Char → Bool
  | [], _ => true
  | _ :: _, [] => false
  | a :: as, b :: bs => a = b && matchesAt as bs

/-- `needle` occurs somewhere in `hay`. -/
def containsSub (needle : List Char) : List Char → Bool
  | [] => matchesAt needle []
  | c :: rest => matchesAt needle (c :: rest) || containsSub needle rest

/-- Case-insensitive substring test on strings. -/
def containsCI (hay needle : String) : Bool :=
  containsSub (needle.data.map Char.toLower) (hay.data.map Char.toLower)

/-- The employee's slice of the ledger (the `eq('employee_id', e)`
filter). -/
def rowsOf (db : List FitxRow) (e : Nat) : List FitxRow :=
  db.filter (fun r => decide (r.employee_id = e))

/-- The effect on one row of the whole sequence of per-id updates a
recompute pass issues. -/
def perRowUpd (outs : List FitxRow) (r : FitxRow) : FitxRow :=
  outs.foldl (fun x o => updRow o x) r

/-! ## Concrete fixtures used by the closed theorems below. -/

/-- One employee with PIN 1111. -/
def employeesEx : List Employee := [⟨1, "1111"⟩]

/-- A fully recomputed (consistent) ledger: a Sunday session
2024-01-07 09:00–10:00 and an open Monday check-in 2024-01-08 09:00.
The Sunday check-out row carries the correct cumulative totals
(1 hour in each bucket). -/
def dbSun : List FitxRow :=
  [⟨1, 1, ⟨2024, 1, 7⟩, 32400, true, true, "00:00:00", "00:00:00", "00:00:00", 0⟩,
   ⟨2, 1, ⟨2024, 1, 7⟩, 36000, false, false, "01:00:00", "01:00:00", "01:00:00", 0⟩,
   ⟨3, 1, ⟨2024, 1, 8⟩, 32400, true, true, "00:00:00", "00:00:00", "00:00:00", 0⟩]

/-- A consistent one-day ledger with two closed sessions
(09:00–10:00 and 11:00–12:00 on 2024-01-02). -/
def dbDel : List FitxRow :=
  [⟨1, 1, ⟨2024, 1, 2⟩, 32400, true, true, "00:00:00", "00:00:00", "00:00:00", 0⟩,
   ⟨2, 1, ⟨2024, 1, 2⟩, 36000, false, false, "01:00:00", "01:00:00", "01:00:00", 0⟩,
   ⟨3, 1, ⟨2024, 1, 2⟩, 39600, true, true, "00:00:00", "00:00:00", "00:00:00", 0⟩,
   ⟨4, 1, ⟨2024, 1, 2⟩, 43200, false, false, "02:00:00", "02:00:00", "02:00:00", 0⟩]

/-- A ledger with one open check-in at 2024-01-02 10:00:00. -/
def dbOpen : List FitxRow :=
  [⟨1, 1, ⟨2024, 1, 2⟩, 36000, true, true, "00:00:00", "00:00:00", "00:00:00", 0⟩]

/-- Replay input for the week-numbering fixture: sessions
2023-01-10 09:00–10:00 and 2024-01-09 09:00–10:00; the two days lie in
DIFFERENT ISO-8601 calendar weeks that carry the SAME week number 2. -/
def rowsWk : List FitxRow :=
  [⟨1, 1, ⟨2023, 1, 10⟩, 32400, true, true, "00:00:00", "00:00:00", "00:00:00", 0⟩,
   ⟨2, 1, ⟨2023, 1, 10⟩, 36000, false, false, "00:00:00", "00:00:00", "00:00:00", 0⟩,
   ⟨3, 1, ⟨2024, 1, 9⟩, 32400, true, true, "00:00:00", "00:00:00", "00:00:00", 0⟩,
   ⟨4, 1, ⟨2024, 1, 9⟩, 36000, false, false, "00:00:00", "00:00:00", "00:00:00", 0⟩]

/-- One stored incidence with id 1. -/
def incEx : List IncRow :=
  [⟨1, 1, "Reported issue", none, "Open", ⟨2024, 1, 1⟩, none⟩]

/-- One open session that started at 2024-01-01 08:00:00. -/
def sessEx : List OpenSession := [⟨1, ⟨2024, 1, 1⟩, 28800⟩]

/-! ## Lemmas about the decimal codec. -/

theorem toRevDigits_eq (fuel n : Nat) (h : n ≤ fuel) :
    toRevDigits fuel n = Nat.digits 10 n := by
  induction fuel generalizing n with
  | zero =>
      have hn : n = 0 := by omega
      subst hn; simp [toRevDigits]
  | succ fuel ih =>
      by_cases h0 : n = 0
      · subst h0; simp [toRevDigits]
      · have hpos : 0 < n := Nat.pos_of_ne_zero h0
        have hle : n / 10 ≤ fuel := by
          have := Nat.div_lt_self hpos (by norm_num : 1 < 10)
          omega
        rw [toRevDigits]
        simp only [h0, if_false]
        rw [ih (n / 10) hle, Nat.digits_def' (by norm_num : 1 < 10) hpos]

theorem digitChar_isDigit (d : Nat) (h : d < 10) :
    (Char.ofNat (48 + d)).isDigit = true := by
  interval_cases d <;> decide

theorem digitChar_toNat (d : Nat) (h : d < 10) :
    (Char.ofNat (48 + d)).toNat - 48 = d := by
  interval_cases d <;> decide

theorem digitChar_ne_colon (d : Nat) (h : d < 10) :
    Char.ofNat (48 + d) ≠ ':' := by
  interval_cases d <;> decide

theorem parseNatCore_digits (ds : List Nat) (acc : Nat) (h : ∀ d ∈ ds, d < 10) :
    parseNatCore (ds.map (fun d => Char.ofNat (48 + d))) acc
      = some (ds.foldl (fun a d => a * 10 + d) acc) := by
  induction ds generalizing acc with
  | nil => rfl
  | cons d rest ih =>
      have hd : d < 10 := h d (by simp)
      simp only [List.map_cons, parseNatCore, digitChar_isDigit d hd, if_true,
        digitChar_toNat d hd, List.foldl_cons]
      exact ih _ (fun x hx => h x (by simp [hx]))

theorem foldl_digits_eq (ds : List Nat) (acc : Nat) :
    ds.foldl (fun a d => a * 10 + d) acc
      = acc * 10 ^ ds.length + Nat.ofDigits 10 ds.reverse := by
  induction ds generalizing acc with
  | nil => simp [Nat.ofDigits]
  | cons d rest ih =>
      simp only [List.foldl_cons, List.length_cons, List.reverse_cons]
      rw [ih, Nat.ofDigits_append]
      have h1 : Nat.ofDigits 10 [d] = d := rfl
      rw [h1]
      simp only [List.length_reverse]
      ring

theorem parseNatCore_natToString (n : Nat) :
    parseNatCore (natToString n).data 0 = some n := by
  by_cases h0 : n = 0
  · subst h0; rfl
  · unfold natToString
    simp only [h0, if_false]
    rw [toRevDigits_eq n n le_rfl,
      parseNatCore_digits _ 0
        (fun d hd => Nat.digits_lt_base (by norm_num) (List.mem_reverse.mp hd)),
      foldl_digits_eq]
    simp [Nat.ofDigits_digits]

theorem parseNatCore_zeros (k : Nat) (cs : List Char) :
    parseNatCore (List.replicate k '0' ++ cs) 0 = parseNatCore cs 0 := by
  induction k with
  | zero => rfl
  | succ k ih =>
      simp only [List.replicate_succ, List.cons_append, parseNatCore]
      simp [show ('0').isDigit = true from rfl, show ('0').toNat - 48 = 0 from rfl, ih]

theorem jsNumber_pad_nat (n : Nat) :
    jsNumber (padStart2 (natToString n)) = some (n : Int) := by
  unfold jsNumber padStart2
  by_cases h : (natToString n).length < 2
  · simp only [h, if_true, String.data_append]
    rw [parseNatCore_zeros, parseNatCore_natToString]
  · simp only [h, if_false]
    rw [parseNatCore_natToString]

theorem natToString_no_colon (n : Nat) : ':' ∉ (natToString n).data := by
  by_cases h0 : n = 0
  · subst h0; decide
  · unfold natToString
    simp only [h0, if_false]
    intro hmem
    rw [toRevDigits_eq n n le_rfl] at hmem
    obtain ⟨d, hd, hc⟩ := List.mem_map.mp hmem
    exact digitChar_ne_colon d
      (Nat.digits_lt_base (by norm_num) (List.mem_reverse.mp hd)) hc

theorem padStart2_no_colon (s : String) (h : ':' ∉ s.data) :
    ':' ∉ (padStart2 s).data := by
  unfold padStart2
  by_cases hl : s.length < 2
  · simp only [hl, if_true, String.data_append]
    intro hmem
    rcases List.mem_append.mp hmem with hmem | hmem
    · have := List.eq_of_mem_replicate hmem
      exact absurd this (by decide)
    · exact h hmem
  · simpa [hl] using h

theorem splitOnChar_cons (sep c : Char) (rest : List Char) :
    splitOnChar sep (c :: rest)
      = match splitOnChar sep rest with
        | [] => [[]]
        | h :: t => if c = sep then [] :: h :: t else (c :: h) :: t := rfl

theorem splitOnChar_ne_nil (sep : Char) (cs : List Char) :
    splitOnChar sep cs ≠ [] := by
  cases cs with
  | nil => simp [splitOnChar]
  | cons c rest =>
      rw [splitOnChar_cons]
      cases h : splitOnChar sep rest with
      | nil => simp
      | cons x t => dsimp; split <;> simp

theorem splitOnChar_not_mem (sep : Char) (cs : List Char) (h : sep ∉ cs) :
    splitOnChar sep cs = [cs] := by
  induction cs with
  | nil => rfl
  | cons c rest ih =>
      have hc : ¬ c = sep := fun e => h (by simp [e])
      have hr := ih (fun m => h (by simp [m]))
      rw [splitOnChar_cons, hr]
      simp [hc]

theorem splitOnChar_append (sep : Char) (a rest : List Char) (h : sep ∉ a) :
    splitOnChar sep (a ++ sep :: rest) = a :: splitOnChar sep rest := by
  induction a with
  | nil =>
      simp only [List.nil_append]
      rw [splitOnChar_cons]
      cases h2 : splitOnChar sep rest with
      | nil => exact absurd h2 (splitOnChar_ne_nil _ _)
      | cons x t => simp
  | cons c a ih =>
      have hc : ¬ c = sep := fun e => h (by simp [e])
      have hr := ih (fun m => h (by simp [m]))
      simp only [List.cons_append]
      rw [splitOnChar_cons, hr]
      simp [hc]

theorem jsString_ofNat (m : Nat) : jsString ((m : Nat) : Int) = natToString m := by
  unfold jsString
  have h1 : ¬ (((m : Nat) : Int) < 0) := by omega
  simp [h1]

theorem fdiv_cast3600 (m : Nat) :
    Int.fdiv ((m : Nat) : Int) 3600 = ((m / 3600 : Nat) : Int) := by
  cases m <;> rfl

theorem tmod_cast3600 (m : Nat) :
    Int.tmod ((m : Nat) : Int) 3600 = ((m % 3600 : Nat) : Int) := by
  cases m <;> rfl

theorem fdiv_cast60 (m : Nat) :
    Int.fdiv ((m : Nat) : Int) 60 = ((m / 60 : Nat) : Int) := by
  cases m <;> rfl

theorem tmod_cast60 (m : Nat) :
    Int.tmod ((m : Nat) : Int) 60 = ((m % 60 : Nat) : Int) := by
  cases m <;> rfl

/-- `secondsToTime` on a non-negative count is the three padded decimal
fields of the hour/minute/second decomposition. -/
theorem secondsToTime_ofNat (n : Nat) :
    secondsToTime ((n : Nat) : Int)
      = padStart2 (natToString (n / 3600)) ++ ":"
        ++ padStart2 (natToString (n % 3600 / 60)) ++ ":"
        ++ padStart2 (natToString (n % 60)) := by
  unfold secondsToTime
  rw [fdiv_cast3600, tmod_cast3600, fdiv_cast60, tmod_cast60,
    jsString_ofNat, jsString_ofNat, jsString_ofNat]

theorem secondsToTime_ofNat_data (n : Nat) :
    (secondsToTime ((n : Nat) : Int)).data
      = (padStart2 (natToString (n / 3600))).data
        ++ ':' :: ((padStart2 (natToString (n % 3600 / 60))).data
        ++ ':' :: (padStart2 (natToString (n % 60))).data) := by
  rw [secondsToTime_ofNat]
  simp [String.data_append]

theorem splitOnChar_secondsToTime (n : Nat) :
    splitOnChar ':' (secondsToTime ((n : Nat) : Int)).data
      = [(padStart2 (natToString (n / 3600))).data,
         (padStart2 (natToString (n % 3600 / 60))).data,
         (padStart2 (natToString (n % 60))).data] := by
  rw [secondsToTime_ofNat_data,
    splitOnChar_append _ _ _ (padStart2_no_colon _ (natToString_no_colon _)),
    splitOnChar_append _ _ _ (padStart2_no_colon _ (natToString_no_colon _)),
    splitOnChar_not_mem _ _ (padStart2_no_colon _ (natToString_no_colon _))]

/-- Round trip of the `routes/fitxatge.js` codec on a non-negative
count of seconds. -/
theorem timeToSeconds_roundTrip (n : Nat) :
    timeToSeconds (secondsToTime ((n : Nat) : Int)) = some ((n : Nat) : Int) := by
  unfold timeToSeconds
  rw [show (secondsToTime ((n : Nat) : Int)).data
      = (String.mk (secondsToTime ((n : Nat) : Int)).data).data from rfl]
  rw [show String.mk (secondsToTime ((n : Nat) : Int)).data
      = secondsToTime ((n : Nat) : Int) from rfl]
  rw [splitOnChar_secondsToTime]
  simp only [List.map_cons, List.map_nil, List.get?]
  rw [show String.mk (padStart2 (natToString (n / 3600))).data
      = padStart2 (natToString (n / 3600)) from rfl,
    show String.mk (padStart2 (natToString (n % 3600 / 60))).data
      = padStart2 (natToString (n % 3600 / 60)) from rfl,
    show String.mk (padStart2 (natToString (n % 60))).data
      = padStart2 (natToString (n % 60)) from rfl,
    jsNumber_pad_nat, jsNumber_pad_nat, jsNumber_pad_nat]
  simp only [Option.getD_some, jsMul, jsAdd]
  congr 1
  push_cast
  omega

/-- Round trip of the `routes/fitxatgeEditor.js` codec on a
non-negative count of seconds. -/
theorem timeToSecondsEditor_roundTrip (n : Nat) :
    timeToSecondsEditor (secondsToTime ((n : Nat) : Int)) = some ((n : Nat) : Int) := by
  have hne : secondsToTime ((n : Nat) : Int) ≠ "" := by
    intro h
    have := congrArg String.data h
    rw [secondsToTime_ofNat_data] at this
    simp at this
  unfold timeToSecondsEditor
  simp only [hne, if_false]
  rw [show (secondsToTime ((n : Nat) : Int)).data
      = (String.mk (secondsToTime ((n : Nat) : Int)).data).data from rfl]
  rw [show String.mk (secondsToTime ((n : Nat) : Int)).data
      = secondsToTime ((n : Nat) : Int) from rfl]
  rw [splitOnChar_secondsToTime]
  simp only [List.map_cons, List.map_nil, List.get?]
  rw [show String.mk (padStart2 (natToString (n / 3600))).data
      = padStart2 (natToString (n / 3600)) from rfl,
    show String.mk (padStart2 (natToString (n % 3600 / 60))).data
      = padStart2 (natToString (n % 3600 / 60)) from rfl,
    show String.mk (padStart2 (natToString (n % 60))).data
      = padStart2 (natToString (n % 60)) from rfl,
    jsNumber_pad_nat, jsNumber_pad_nat, jsNumber_pad_nat]
  simp only [Option.getD_some, jsMul, jsAdd]
  congr 1
  push_cast
  omega


/-! ## Lemmas about the accumulator replay. -/

theorem copyFields_self (r : FitxRow) : copyFields r r = r := rfl

theorem recomputeGo_cons (st : RecState) (r : FitxRow) (rest : List FitxRow) :
    recomputeGo st (r :: rest)
      = (recomputeStep st r).2 :: recomputeGo (recomputeStep st r).1 rest := rfl

theorem replayState_cons (st : RecState) (r : FitxRow) (rest : List FitxRow) :
    replayState st (r :: rest) = replayState (recomputeStep st r).1 rest := rfl

theorem recomputeStep_row_fields (st : RecState) (r : FitxRow) :
    ((recomputeStep st r).2).id = r.id ∧
    ((recomputeStep st r).2).employee_id = r.employee_id ∧
    ((recomputeStep st r).2).dia = r.dia ∧
    ((recomputeStep st r).2).hora = r.hora ∧
    ((recomputeStep st r).2).working = r.working ∧
    ((recomputeStep st r).2).vacances = r.vacances := by
  unfold recomputeStep
  cases hw : r.working <;> simp [hw, setFields]

theorem recomputeStep_congr (st : RecState) (r r' : FitxRow)
    (hd : r'.dia = r.dia) (hh : r'.hora = r.hora) (hw : r'.working = r.working) :
    (recomputeStep st r').1 = (recomputeStep st r).1 ∧
    (recomputeStep st r').2 = copyFields r' (recomputeStep st r).2 := by
  unfold recomputeStep
  rw [hd, hh, hw]
  cases hwv : r.working <;> simp [setFields, copyFields]

theorem recomputeGo_idem (st : RecState) (rows : List FitxRow) :
    recomputeGo st (recomputeGo st rows) = recomputeGo st rows := by
  induction rows generalizing st with
  | nil => rfl
  | cons r rest ih =>
      obtain ⟨-, -, h3, h4, h5, -⟩ := recomputeStep_row_fields st r
      have hc := recomputeStep_congr st r (recomputeStep st r).2 h3 h4 h5
      rw [recomputeGo_cons, recomputeGo_cons, hc.1, hc.2, copyFields_self, ih]

theorem replayState_recomputeGo (st : RecState) (rows : List FitxRow) :
    replayState st (recomputeGo st rows) = replayState st rows := by
  induction rows generalizing st with
  | nil => rfl
  | cons r rest ih =>
      obtain ⟨-, -, h3, h4, h5, -⟩ := recomputeStep_row_fields st r
      have hc := recomputeStep_congr st r (recomputeStep st r).2 h3 h4 h5
      rw [recomputeGo_cons, replayState_cons, replayState_cons, hc.1, ih]

theorem recomputeGo_append (st : RecState) (xs ys : List FitxRow) :
    recomputeGo st (xs ++ ys)
      = recomputeGo st xs ++ recomputeGo (replayState st xs) ys := by
  induction xs generalizing st with
  | nil => rfl
  | cons r rest ih =>
      rw [List.cons_append, recomputeGo_cons, recomputeGo_cons, ih]
      rfl

theorem replayState_append (st : RecState) (xs ys : List FitxRow) :
    replayState st (xs ++ ys) = replayState (replayState st xs) ys := by
  simp [replayState, List.foldl_append]

theorem recomputeGo_length (st : RecState) (rows : List FitxRow) :
    (recomputeGo st rows).length = rows.length := by
  induction rows generalizing st with
  | nil => rfl
  | cons r rest ih => rw [recomputeGo_cons]; simp [ih]

theorem recomputeGo_get? (st : RecState) (rows : List FitxRow) (i : Nat)
    (h : i < rows.length) :
    (recomputeGo st rows).get? i
      = some ((recomputeStep (replayState st (rows.take i)) (rows.get ⟨i, h⟩)).2) := by
  induction rows generalizing st i with
  | nil => simp at h
  | cons r rest ih =>
      cases i with
      | zero => rfl
      | succ i =>
          rw [recomputeGo_cons]
          simp only [List.get?_cons_succ, List.take_succ_cons, List.get_cons_succ]
          rw [replayState_cons]
          exact ih _ i (by simpa using h)

theorem mem_recomputeGo (st : RecState) (rows : List FitxRow) (x : FitxRow)
    (h : x ∈ recomputeGo st rows) :
    ∃ r ∈ rows, x.id = r.id ∧ x.employee_id = r.employee_id ∧ x.dia = r.dia ∧
      x.hora = r.hora ∧ x.working = r.working := by
  induction rows generalizing st with
  | nil => simp [recomputeGo] at h
  | cons r rest ih =>
      rw [recomputeGo_cons] at h
      rcases List.mem_cons.mp h with h | h
      · obtain ⟨h1, h2, h3, h4, h5, -⟩ := recomputeStep_row_fields st r
        exact ⟨r, by simp, by rw [h, h1], by rw [h, h2], by rw [h, h3],
          by rw [h, h4], by rw [h, h5]⟩
      · obtain ⟨r0, hr0, hf⟩ := ih _ h
        exact ⟨r0, by simp [hr0], hf⟩

theorem resetTotals_dailySecs (st : RecState) (dia : Date) :
    (resetTotals st dia).dailySecs
      = if st.currentDay = some dia then st.dailySecs else 0 := by
  unfold resetTotals
  dsimp only
  split <;> split <;> split <;> rfl

theorem resetTotals_weeklySecs (st : RecState) (dia : Date) :
    (resetTotals st dia).weeklySecs
      = if st.currentWeek = some (isoWeekNum dia) then st.weeklySecs else 0 := by
  unfold resetTotals
  dsimp only
  split <;> split <;> split <;> rfl

theorem resetTotals_monthlySecs (st : RecState) (dia : Date) :
    (resetTotals st dia).monthlySecs
      = if st.currentMonth = some (monthKey dia) then st.monthlySecs else 0 := by
  unfold resetTotals
  dsimp only
  split <;> split <;> split <;> rfl

theorem resetTotals_currentDay (st : RecState) (dia : Date) :
    (resetTotals st dia).currentDay = some dia := by
  unfold resetTotals
  dsimp only
  split <;> split <;> split <;> simp_all

theorem resetTotals_currentWeek (st : RecState) (dia : Date) :
    (resetTotals st dia).currentWeek = some (isoWeekNum dia) := by
  unfold resetTotals
  dsimp only
  split <;> split <;> split <;> simp_all

theorem resetTotals_currentMonth (st : RecState) (dia : Date) :
    (resetTotals st dia).currentMonth = some (monthKey dia) := by
  unfold resetTotals
  dsimp only
  split <;> split <;> split <;> simp_all

theorem resetTotals_lastCheckIn (st : RecState) (dia : Date) :
    (resetTotals st dia).lastCheckIn = st.lastCheckIn := by
  unfold resetTotals
  dsimp only
  split <;> split <;> split <;> rfl

theorem checkoutElapsed_nonneg (o : Option Int) (ts : Int) :
    0 ≤ checkoutElapsed o ts := by
  cases o with
  | none => simp [checkoutElapsed]
  | some t =>
      simp only [checkoutElapsed]
      split <;> omega

theorem step_state_currentDay (st : RecState) (r : FitxRow) :
    ((recomputeStep st r).1).currentDay = some r.dia := by
  unfold recomputeStep
  dsimp only
  split <;> simp [resetTotals_currentDay]

theorem step_state_currentWeek (st : RecState) (r : FitxRow) :
    ((recomputeStep st r).1).currentWeek = some (isoWeekNum r.dia) := by
  unfold recomputeStep
  dsimp only
  split <;> simp [resetTotals_currentWeek]

theorem step_state_currentMonth (st : RecState) (r : FitxRow) :
    ((recomputeStep st r).1).currentMonth = some (monthKey r.dia) := by
  unfold recomputeStep
  dsimp only
  split <;> simp [resetTotals_currentMonth]

theorem replayState_nonneg (st : RecState) (rows : List FitxRow)
    (h : 0 ≤ st.dailySecs ∧ 0 ≤ st.weeklySecs ∧ 0 ≤ st.monthlySecs) :
    0 ≤ (replayState st rows).dailySecs ∧ 0 ≤ (replayState st rows).weeklySecs ∧
      0 ≤ (replayState st rows).monthlySecs := by
  induction rows generalizing st with
  | nil => exact h
  | cons r rest ih =>
      rw [replayState_cons]
      refine ih _ ?_
      have hd := resetTotals_dailySecs st r.dia
      have hw := resetTotals_weeklySecs st r.dia
      have hm := resetTotals_monthlySecs st r.dia
      have he := checkoutElapsed_nonneg (resetTotals st r.dia).lastCheckIn (tsOf r.dia r.hora)
      unfold recomputeStep
      dsimp only
      split
      · refine ⟨?_, ?_, ?_⟩ <;> simp only [hd, hw, hm] <;> split <;> omega
      · refine ⟨?_, ?_, ?_⟩ <;> dsimp only <;>
          simp only [hd, hw, hm] <;> split <;> omega

/-! ## Lemmas about the per-id persistence of a recompute pass. -/

theorem copyFields_copyFields (r a b : FitxRow) :
    copyFields (copyFields r a) b = copyFields r b := rfl

theorem copyFields_step (st : RecState) (r : FitxRow) :
    copyFields r (recomputeStep st r).2 = (recomputeStep st r).2 := by
  unfold recomputeStep
  dsimp only
  split <;> rfl

theorem updRow_fields (o r : FitxRow) :
    (updRow o r).id = r.id ∧ (updRow o r).employee_id = r.employee_id ∧
    (updRow o r).dia = r.dia ∧ (updRow o r).hora = r.hora ∧
    (updRow o r).working = r.working ∧ (updRow o r).vacances = r.vacances := by
  unfold updRow copyFields setFields
  split <;> simp

theorem perRowUpd_cons (o : FitxRow) (rest : List FitxRow) (r : FitxRow) :
    perRowUpd (o :: rest) r = perRowUpd rest (updRow o r) := rfl

theorem perRowUpd_fields (outs : List FitxRow) (r : FitxRow) :
    (perRowUpd outs r).id = r.id ∧ (perRowUpd outs r).employee_id = r.employee_id ∧
    (perRowUpd outs r).dia = r.dia ∧ (perRowUpd outs r).hora = r.hora ∧
    (perRowUpd outs r).working = r.working ∧ (perRowUpd outs r).vacances = r.vacances := by
  induction outs generalizing r with
  | nil => exact ⟨rfl, rfl, rfl, rfl, rfl, rfl⟩
  | cons o rest ih =>
      rw [perRowUpd_cons]
      obtain ⟨i1, i2, i3, i4, i5, i6⟩ := ih (updRow o r)
      obtain ⟨u1, u2, u3, u4, u5, u6⟩ := updRow_fields o r
      exact ⟨i1.trans u1, i2.trans u2, i3.trans u3, i4.trans u4, i5.trans u5, i6.trans u6⟩

theorem foldl_applyUpdate_eq_map (db outs : List FitxRow) :
    outs.foldl applyUpdate db = db.map (perRowUpd outs) := by
  induction outs generalizing db with
  | nil =>
      rw [List.foldl_nil, show perRowUpd [] = fun r => r from rfl, List.map_id']
  | cons o rest ih =>
      rw [List.foldl_cons]
      show rest.foldl applyUpdate (applyUpdate db o) = _
      rw [ih]
      unfold applyUpdate
      rw [List.map_map]
      rfl

theorem perRowUpd_no_match (outs : List FitxRow) (x : FitxRow)
    (h : ∀ o ∈ outs, o.id ≠ x.id) :
    perRowUpd outs x = x := by
  induction outs with
  | nil => rfl
  | cons o rest ih =>
      rw [perRowUpd_cons]
      have hne : ¬ x.id = o.id := fun e => h o (by simp) e.symm
      rw [show updRow o x = x from by unfold updRow; rw [if_neg hne]]
      exact ih (fun o2 h2 => h o2 (by simp [h2]))

theorem perRowUpd_lastMatch (outs : List FitxRow) (r : FitxRow) :
    perRowUpd outs r
      = match (outs.filter (fun o => decide (o.id = r.id))).getLast? with
        | some o => copyFields r o
        | none => r := by
  induction outs generalizing r with
  | nil => rfl
  | cons o rest ih =>
      rw [perRowUpd_cons, List.filter_cons]
      by_cases h : o.id = r.id
      · have hupd : updRow o r = copyFields r o := by
          unfold updRow; rw [if_pos h.symm]
        have hid : (updRow o r).id = r.id := (updRow_fields o r).1
        rw [ih (updRow o r)]
        simp only [hid, h, decide_True, if_true]
        cases hfl : rest.filter (fun o2 => decide (o2.id = r.id)) with
        | nil => simp [hupd]
        | cons x t =>
            rw [List.getLast?_cons_cons]
            cases hg : (x :: t).getLast? with
            | none => simp at hg
            | some o2 => simp [hupd, copyFields_copyFields]
      · simp only [h, decide_False, if_false]
        rw [show updRow o r = r from by
          unfold updRow; rw [if_neg (fun e => h e.symm)]]
        exact ih r

theorem perRowUpd_idem (outs : List FitxRow) (r : FitxRow) :
    perRowUpd outs (perRowUpd outs r) = perRowUpd outs r := by
  have hid : (perRowUpd outs r).id = r.id := (perRowUpd_fields outs r).1
  conv_lhs => rw [perRowUpd_lastMatch]
  simp only [hid]
  cases hg : (outs.filter (fun o => decide (o.id = r.id))).getLast? with
  | none => rfl
  | some o =>
      have h2 : perRowUpd outs r = copyFields r o := by
        rw [perRowUpd_lastMatch, hg]
      rw [h2]
      exact copyFields_copyFields r o o

theorem foldl_applyUpdate_idem (db outs : List FitxRow) :
    outs.foldl applyUpdate (outs.foldl applyUpdate db) = outs.foldl applyUpdate db := by
  rw [foldl_applyUpdate_eq_map, foldl_applyUpdate_eq_map, List.map_map]
  exact List.map_congr_left (fun r _ => perRowUpd_idem outs r)

theorem recomputeGo_map_id (st : RecState) (rows : List FitxRow) :
    (recomputeGo st rows).map (fun r => r.id) = rows.map (fun r => r.id) := by
  induction rows generalizing st with
  | nil => rfl
  | cons r rest ih =>
      rw [recomputeGo_cons]
      simp only [List.map_cons, (recomputeStep_row_fields st r).1, ih]

theorem map_perRowUpd_recomputeGo (st : RecState) (L : List FitxRow)
    (hnd : (L.map (fun r => r.id)).Nodup) :
    L.map (perRowUpd (recomputeGo st L)) = recomputeGo st L := by
  induction L generalizing st with
  | nil => rfl
  | cons r rest ih =>
      rw [recomputeGo_cons]
      simp only [List.map_cons] at hnd ⊢
      rw [List.nodup_cons] at hnd
      have hids : (recomputeGo (recomputeStep st r).1 rest).map (fun x => x.id)
          = rest.map (fun x => x.id) := recomputeGo_map_id _ _
      have hido : (recomputeStep st r).2.id = r.id := (recomputeStep_row_fields st r).1
      have hhead : perRowUpd ((recomputeStep st r).2
            :: recomputeGo (recomputeStep st r).1 rest) r = (recomputeStep st r).2 := by
        rw [perRowUpd_cons,
          show updRow (recomputeStep st r).2 r = copyFields r (recomputeStep st r).2 from by
            unfold updRow; rw [if_pos hido.symm],
          copyFields_step]
        refine perRowUpd_no_match _ _ (fun o2 h2 => ?_)
        have hmem : o2.id ∈ rest.map (fun x => x.id) := by
          rw [← hids]; exact List.mem_map_of_mem _ h2
        rw [hido]
        intro he
        exact hnd.1 (by rw [← he]; exact hmem)
      rw [hhead]
      congr 1
      have htail : ∀ x ∈ rest,
          perRowUpd ((recomputeStep st r).2 :: recomputeGo (recomputeStep st r).1 rest) x
            = perRowUpd (recomputeGo (recomputeStep st r).1 rest) x := by
        intro x hx
        rw [perRowUpd_cons]
        have hxne : ¬ x.id = (recomputeStep st r).2.id := by
          rw [hido]
          intro he
          exact hnd.1 (by rw [← he]; exact List.mem_map_of_mem _ hx)
        rw [show updRow (recomputeStep st r).2 x = x from by
          unfold updRow; rw [if_neg hxne]]
      rw [List.map_congr_left htail]
      exact ih _ hnd.2

theorem filter_emp_map_perRowUpd (db outs : List FitxRow) (e : Nat) :
    (db.map (perRowUpd outs)).filter (fun r => decide (r.employee_id = e))
      = (db.filter (fun r => decide (r.employee_id = e))).map (perRowUpd outs) := by
  rw [List.filter_map]
  congr 1
  apply List.filter_congr
  intro r _
  simp [Function.comp, (perRowUpd_fields outs r).2.1]

theorem ledgerLE_perRowUpd (outs : List FitxRow) (a b : FitxRow) :
    ledgerLE (perRowUpd outs a) (perRowUpd outs b) = ledgerLE a b := by
  unfold ledgerLE
  obtain ⟨a1, -, a3, a4, -, -⟩ := perRowUpd_fields outs a
  obtain ⟨b1, -, b3, b4, -, -⟩ := perRowUpd_fields outs b
  rw [a1, a3, a4, b1, b3, b4]

theorem insertSorted_map_perRowUpd (outs : List FitxRow) (r : FitxRow) (l : List FitxRow) :
    insertSorted (perRowUpd outs r) (l.map (perRowUpd outs))
      = (insertSorted r l).map (perRowUpd outs) := by
  induction l with
  | nil => rfl
  | cons x xs ih =>
      simp only [List.map_cons, insertSorted]
      rw [ledgerLE_perRowUpd]
      cases h : ledgerLE r x <;> simp [h, ih]

theorem sortLedger_map_perRowUpd (outs : List FitxRow) (l : List FitxRow) :
    sortLedger (l.map (perRowUpd outs)) = (sortLedger l).map (perRowUpd outs) := by
  induction l with
  | nil => rfl
  | cons x xs ih =>
      show insertSorted (perRowUpd outs x) (sortLedger (xs.map (perRowUpd outs)))
        = (insertSorted x (sortLedger xs)).map (perRowUpd outs)
      rw [ih, insertSorted_map_perRowUpd]

theorem insertSorted_perm (r : FitxRow) (l : List FitxRow) :
    (insertSorted r l).Perm (r :: l) := by
  induction l with
  | nil => exact List.Perm.refl _
  | cons x xs ih =>
      unfold insertSorted
      split
      · exact List.Perm.refl _
      · exact (ih.cons x).trans (List.Perm.swap r x xs)

theorem sortLedger_perm (l : List FitxRow) : (sortLedger l).Perm l := by
  induction l with
  | nil => exact List.Perm.refl _
  | cons x xs ih =>
      show (insertSorted x (sortLedger xs)).Perm (x :: xs)
      exact (insertSorted_perm x (sortLedger xs)).trans (ih.cons x)

theorem recomputeRows_idem (rows : List FitxRow) :
    recomputeRows (recomputeRows rows) = recomputeRows rows :=
  recomputeGo_idem recInit rows

/-- Running the store-level recompute a second time rewrites exactly the
values the first run produced: the pass is a fixpoint on tables whose
ids (within the recomputed employee) are unique. -/
theorem recomputeHours_fix (e : Nat) (db : List FitxRow)
    (hnd : ((db.filter (fun r => decide (r.employee_id = e))).map (fun r => r.id)).Nodup) :
    recomputeHours e (recomputeHours e db) = recomputeHours e db := by
  have hperm := sortLedger_perm (db.filter (fun r => decide (r.employee_id = e)))
  have hL : ((sortLedger (db.filter (fun r => decide (r.employee_id = e)))).map
      (fun r => r.id)).Nodup := ((hperm.map (fun r => r.id)).nodup_iff).mpr hnd
  have hdbeq : recomputeHours e db
      = db.map (perRowUpd (recomputeRows (sortLedger
          (db.filter (fun r => decide (r.employee_id = e)))))) :=
    foldl_applyUpdate_eq_map _ _
  have hreread : sortLedger ((recomputeHours e db).filter
        (fun r => decide (r.employee_id = e)))
      = recomputeRows (sortLedger (db.filter (fun r => decide (r.employee_id = e)))) := by
    rw [hdbeq, filter_emp_map_perRowUpd, sortLedger_map_perRowUpd]
    exact map_perRowUpd_recomputeGo recInit _ hL
  calc recomputeHours e (recomputeHours e db)
      = (recomputeRows (sortLedger ((recomputeHours e db).filter
          (fun r => decide (r.employee_id = e))))).foldl applyUpdate
          (recomputeHours e db) := rfl
    _ = (recomputeRows (sortLedger (db.filter
          (fun r => decide (r.employee_id = e))))).foldl applyUpdate
          (recomputeHours e db) := by rw [hreread, recomputeRows_idem]
    _ = recomputeHours e db := foldl_applyUpdate_idem db _

/-! ## Shape lemmas for one accumulator iteration. -/

theorem recomputeStep_out_true (st : RecState) (r : FitxRow) (hw : r.working = true) :
    (recomputeStep st r).2 = setFields r true "00:00:00" "00:00:00" "00:00:00" := by
  unfold recomputeStep
  rw [hw]
  rfl

theorem recomputeStep_st_true (st : RecState) (r : FitxRow) (hw : r.working = true) :
    (recomputeStep st r).1
      = { resetTotals st r.dia with lastCheckIn := some (tsOf r.dia r.hora) } := by
  unfold recomputeStep
  rw [hw]
  rfl

theorem recomputeStep_out_false (st : RecState) (r : FitxRow) (hw : r.working = false) :
    (recomputeStep st r).2 = setFields r false
      (secondsToTime ((resetTotals st r.dia).dailySecs
        + checkoutElapsed (resetTotals st r.dia).lastCheckIn (tsOf r.dia r.hora)))
      (secondsToTime ((resetTotals st r.dia).weeklySecs
        + checkoutElapsed (resetTotals st r.dia).lastCheckIn (tsOf r.dia r.hora)))
      (secondsToTime ((resetTotals st r.dia).monthlySecs
        + checkoutElapsed (resetTotals st r.dia).lastCheckIn (tsOf r.dia r.hora))) := by
  unfold recomputeStep
  rw [hw]
  rfl

theorem recomputeStep_st_false (st : RecState) (r : FitxRow) (hw : r.working = false) :
    (recomputeStep st r).1 = { resetTotals st r.dia with
      dailySecs := (resetTotals st r.dia).dailySecs
        + checkoutElapsed (resetTotals st r.dia).lastCheckIn (tsOf r.dia r.hora),
      weeklySecs := (resetTotals st r.dia).weeklySecs
        + checkoutElapsed (resetTotals st r.dia).lastCheckIn (tsOf r.dia r.hora),
      monthlySecs := (resetTotals st r.dia).monthlySecs
        + checkoutElapsed (resetTotals st r.dia).lastCheckIn (tsOf r.dia r.hora),
      lastCheckIn := none } := by
  unfold recomputeStep
  rw [hw]
  rfl

theorem checkoutElapsed_some (t ts : Int) :
    checkoutElapsed (some t) ts = max 0 (ts - t) := by
  show (if ts - t < 0 then 0 else ts - t) = max 0 (ts - t)
  split <;> omega

theorem stateBefore_fields (rows : List FitxRow) (i : Nat) (h : i < rows.length) :
    (stateBefore rows (i + 1)).currentDay = some (rows.get ⟨i, h⟩).dia ∧
    (stateBefore rows (i + 1)).currentWeek = some (isoWeekNum (rows.get ⟨i, h⟩).dia) ∧
    (stateBefore rows (i + 1)).currentMonth = some (monthKey (rows.get ⟨i, h⟩).dia) := by
  unfold stateBefore
  rw [List.take_succ, List.getElem?_eq_getElem h]
  simp only [Option.toList_some]
  rw [replayState_append]
  simp only [List.get_eq_getElem]
  exact ⟨step_state_currentDay _ _, step_state_currentWeek _ _, step_state_currentMonth _ _⟩

theorem checkoutElapsed_match (o : Option Int) (ts : Int) :
    checkoutElapsed o ts
      = match o with
        | some t => max 0 (ts - t)
        | none => 0 := by
  cases o with
  | none => rfl
  | some t => exact checkoutElapsed_some t ts

/-! ## Claim theorems. -/

/-- Claim C1: for every employee event list replayed in ascending
(date, time, id) order by the Hours Accumulator, each check-in row
(`working = true`) is persisted with `active = true` and all three
duration fields zero, and each check-out row with `active = false` and
duration fields equal to the running daily/weekly/monthly totals plus
`elapsed = max(0, event timestamp - open check-in timestamp)` when an
open check-in exists, or plus 0 when none does. -/
theorem accumulator_persists_checkin_checkout (rows : List FitxRow) (i : Nat)
    (h : i < rows.length) :
    ∃ out, (recomputeRows rows).get? i = some out ∧
      ((rows.get ⟨i, h⟩).working = true →
        out.active = true ∧ out.hores_diaries = "00:00:00" ∧
        out.hores_setmanals = "00:00:00" ∧ out.hores_mensuals = "00:00:00") ∧
      ((rows.get ⟨i, h⟩).working = false →
        out.active = false ∧
        out.hores_diaries = secondsToTime
          ((resetTotals (stateBefore rows i) (rows.get ⟨i, h⟩).dia).dailySecs
            + (match (stateBefore rows i).lastCheckIn with
               | some t => max 0 (tsOf (rows.get ⟨i, h⟩).dia (rows.get ⟨i, h⟩).hora - t)
               | none => 0)) ∧
        out.hores_setmanals = secondsToTime
          ((resetTotals (stateBefore rows i) (rows.get ⟨i, h⟩).dia).weeklySecs
            + (match (stateBefore rows i).lastCheckIn with
               | some t => max 0 (tsOf (rows.get ⟨i, h⟩).dia (rows.get ⟨i, h⟩).hora - t)
               | none => 0)) ∧
        out.hores_mensuals = secondsToTime
          ((resetTotals (stateBefore rows i) (rows.get ⟨i, h⟩).dia).monthlySecs
            + (match (stateBefore rows i).lastCheckIn with
               | some t => max 0 (tsOf (rows.get ⟨i, h⟩).dia (rows.get ⟨i, h⟩).hora - t)
               | none => 0))) := by
  refine ⟨(recomputeStep (stateBefore rows i) (rows.get ⟨i, h⟩)).2,
    recomputeGo_get? recInit rows i h, ?_, ?_⟩
  · intro hw
    rw [recomputeStep_out_true _ _ hw]
    exact ⟨rfl, rfl, rfl, rfl⟩
  · intro hw
    rw [recomputeStep_out_false _ _ hw, resetTotals_lastCheckIn, checkoutElapsed_match]
    exact ⟨rfl, rfl, rfl, rfl⟩

theorem accumulator_persists_checkin_checkout_witness :
    1 < dbDel.length ∧
    (∃ out, (recomputeRows dbDel).get? 1 = some out ∧
      ((dbDel.get ⟨1, by decide⟩).working = true →
        out.active = true ∧ out.hores_diaries = "00:00:00" ∧
        out.hores_setmanals = "00:00:00" ∧ out.hores_mensuals = "00:00:00") ∧
      ((dbDel.get ⟨1, by decide⟩).working = false →
        out.active = false ∧
        out.hores_diaries = secondsToTime
          ((resetTotals (stateBefore dbDel 1) (dbDel.get ⟨1, by decide⟩).dia).dailySecs
            + (match (stateBefore dbDel 1).lastCheckIn with
               | some t => max 0 (tsOf (dbDel.get ⟨1, by decide⟩).dia
                   (dbDel.get ⟨1, by decide⟩).hora - t)
               | none => 0)) ∧
        out.hores_setmanals = secondsToTime
          ((resetTotals (stateBefore dbDel 1) (dbDel.get ⟨1, by decide⟩).dia).weeklySecs
            + (match (stateBefore dbDel 1).lastCheckIn with
               | some t => max 0 (tsOf (dbDel.get ⟨1, by decide⟩).dia
                   (dbDel.get ⟨1, by decide⟩).hora - t)
               | none => 0)) ∧
        out.hores_mensuals = secondsToTime
          ((resetTotals (stateBefore dbDel 1) (dbDel.get ⟨1, by decide⟩).dia).monthlySecs
            + (match (stateBefore dbDel 1).lastCheckIn with
               | some t => max 0 (tsOf (dbDel.get ⟨1, by decide⟩).dia
                   (dbDel.get ⟨1, by decide⟩).hora - t)
               | none => 0)))) :=
  ⟨by decide, accumulator_persists_checkin_checkout dbDel 1 (by decide)⟩

/-- Claim C5 (amended): during a replay pass, the daily total entering
an event is carried over exactly when the event's calendar day equals
the previous event's, the monthly total exactly when the `YYYY-MM`
month key is equal, but the weekly total is carried over exactly when
the ISO week NUMBER (`isoWeek()`, not year-qualified) is equal —
two events in equally-numbered ISO weeks of different years do NOT
reset the weekly total. -/
theorem period_reset_guards (rows : List FitxRow) (i : Nat)
    (h1 : i < rows.length) (h : i + 1 < rows.length) :
    ((resetTotals (stateBefore rows (i + 1)) (rows.get ⟨i + 1, h⟩).dia).dailySecs
      = if (rows.get ⟨i, h1⟩).dia = (rows.get ⟨i + 1, h⟩).dia
        then (stateBefore rows (i + 1)).dailySecs else 0) ∧
    ((resetTotals (stateBefore rows (i + 1)) (rows.get ⟨i + 1, h⟩).dia).weeklySecs
      = if isoWeekNum (rows.get ⟨i, h1⟩).dia = isoWeekNum (rows.get ⟨i + 1, h⟩).dia
        then (stateBefore rows (i + 1)).weeklySecs else 0) ∧
    ((resetTotals (stateBefore rows (i + 1)) (rows.get ⟨i + 1, h⟩).dia).monthlySecs
      = if monthKey (rows.get ⟨i, h1⟩).dia = monthKey (rows.get ⟨i + 1, h⟩).dia
        then (stateBefore rows (i + 1)).monthlySecs else 0) := by
  obtain ⟨hd, hw, hm⟩ := stateBefore_fields rows i h1
  refine ⟨?_, ?_, ?_⟩
  · rw [resetTotals_dailySecs, hd]
    simp only [Option.some.injEq]
  · rw [resetTotals_weeklySecs, hw]
    simp only [Option.some.injEq]
  · rw [resetTotals_monthlySecs, hm]
    simp only [Option.some.injEq]

theorem period_reset_guards_witness :
    0 < rowsWk.length ∧ 0 + 1 < rowsWk.length ∧
    (((resetTotals (stateBefore rowsWk (0 + 1)) (rowsWk.get ⟨0 + 1, by decide⟩).dia).dailySecs
      = if (rowsWk.get ⟨0, by decide⟩).dia = (rowsWk.get ⟨0 + 1, by decide⟩).dia
        then (stateBefore rowsWk (0 + 1)).dailySecs else 0) ∧
    ((resetTotals (stateBefore rowsWk (0 + 1)) (rowsWk.get ⟨0 + 1, by decide⟩).dia).weeklySecs
      = if isoWeekNum (rowsWk.get ⟨0, by decide⟩).dia
          = isoWeekNum (rowsWk.get ⟨0 + 1, by decide⟩).dia
        then (stateBefore rowsWk (0 + 1)).weeklySecs else 0) ∧
    ((resetTotals (stateBefore rowsWk (0 + 1)) (rowsWk.get ⟨0 + 1, by decide⟩).dia).monthlySecs
      = if monthKey (rowsWk.get ⟨0, by decide⟩).dia
          = monthKey (rowsWk.get ⟨0 + 1, by decide⟩).dia
        then (stateBefore rowsWk (0 + 1)).monthlySecs else 0)) :=
  ⟨by decide, by decide, period_reset_guards rowsWk 0 (by decide) (by decide)⟩

/-- Claim C5 (counterexample): the weekly total does NOT reset exactly
when the ISO-8601 calendar week (year-qualified (ISO year, week) pair)
differs: in `rowsWk`, rows 2 and 3 lie in different ISO-8601 weeks
(week 2 of 2023 vs week 2 of 2024), yet the weekly total is carried
over, because the code compares only the `isoWeek()` number. -/
theorem period_reset_iso_week_cex :
    ¬ (∀ (rows : List FitxRow) (i : Nat) (h1 : i < rows.length)
        (h : i + 1 < rows.length),
        (resetTotals (stateBefore rows (i + 1)) (rows.get ⟨i + 1, h⟩).dia).weeklySecs
          = if isoWeekPair (rows.get ⟨i, h1⟩).dia = isoWeekPair (rows.get ⟨i + 1, h⟩).dia
            then (stateBefore rows (i + 1)).weeklySecs else 0) := by
  intro hcl
  have h2 := hcl rowsWk 1 (by decide) (by decide)
  revert h2
  decide

/-- Claim C6: the Hours Accumulator is idempotent — on a table whose
employee rows have unique ids, running the store-level recompute twice
persists exactly the same `active` flags and duration fields as running
it once. -/
theorem accumulator_idempotent (e : Nat) (db : List FitxRow)
    (hnd : ((db.filter (fun r => decide (r.employee_id = e))).map (fun r => r.id)).Nodup) :
    recomputeHours e (recomputeHours e db) = recomputeHours e db :=
  recomputeHours_fix e db hnd

theorem accumulator_idempotent_witness :
    ((dbDel.filter (fun r => decide (r.employee_id = 1))).map (fun r => r.id)).Nodup ∧
    recomputeHours 1 (recomputeHours 1 dbDel) = recomputeHours 1 dbDel :=
  ⟨by decide, accumulator_idempotent 1 dbDel (by decide)⟩

/-- Claim C7: for every non-negative integer count of seconds `s`,
parsing the formatted `HH:MM:SS` duration gives back exactly `s`, in
both the clock route's codec and the editor route's codec. -/
theorem codec_round_trip (s : Nat) :
    timeToSeconds (secondsToTime ((s : Nat) : Int)) = some ((s : Nat) : Int) ∧
    timeToSecondsEditor (secondsToTime ((s : Nat) : Int)) = some ((s : Nat) : Int) :=
  ⟨timeToSeconds_roundTrip s, timeToSecondsEditor_roundTrip s⟩

/-- Claim C8 (amended): `timeToSeconds` never raises, and the empty
string yields 0 in both codecs; but a malformed (non-numeric) input
yields NaN — not 0 — in both codecs, and a wrongly delimited `HH:MM`
input yields NaN in the editor codec while the clock codec defaults the
missing seconds part to 0. -/
theorem codec_lenient_amended :
    timeToSeconds "" = some 0 ∧ timeToSecondsEditor "" = some 0 ∧
    timeToSeconds "abc" = none ∧ timeToSecondsEditor "abc" = none ∧
    timeToSeconds "12:30" = some 45000 ∧ timeToSecondsEditor "12:30" = none := by
  decide

/-- Claim C8 (counterexample): on the malformed input `"abc"` both
parsers return NaN (`none`), not the integer 0 the claim promises. -/
theorem codec_malformed_cex :
    timeToSeconds "abc" = none ∧ timeToSecondsEditor "abc" = none ∧
    ¬ timeToSeconds "abc" = some 0 ∧ ¬ timeToSecondsEditor "abc" = some 0 := by
  decide

/-- Claim C9 (amended): `PUT /incidences/complete/:id` is an
unconditional update with no existence check: it answers the success
message whether or not the id exists (never NotFound), a table without
the id is left unchanged, and otherwise every incidence with that id
gets status `Completed` and resolution date today while every other
incidence is unchanged. -/
theorem resolve_incidence_amended (db : List IncRow) (id : Nat) (today : Date)
    (j : Nat) (hj : j < db.length) :
    (completeIncidence db id today).2
      = Resp.ok ("Incidence " ++ natToString id ++ " marked as completed.") ∧
    (completeIncidence db id today).1.length = db.length ∧
    ((∀ i ∈ db, i.incidence_id ≠ id) → (completeIncidence db id today).1 = db) ∧
    (completeIncidence db id today).1.get? j
      = some (if (db.get ⟨j, hj⟩).incidence_id = id
          then { (db.get ⟨j, hj⟩) with
                 instancestatus := "Completed",
                 date_resolved := some today }
          else db.get ⟨j, hj⟩) := by
  refine ⟨rfl, ?_, ?_, ?_⟩
  · exact List.length_map _ _
  · intro hnone
    show db.map _ = db
    have h2 : ∀ i ∈ db,
        (if i.incidence_id = id then
          { i with instancestatus := "Completed", date_resolved := some today }
         else i) = i := by
      intro i hi
      rw [if_neg (hnone i hi)]
    calc db.map _ = db.map (fun i => i) := List.map_congr_left h2
      _ = db := List.map_id' db
  · show (db.map _).get? j = _
    rw [List.get?_map, List.get?_eq_get hj]
    rfl

theorem resolve_incidence_amended_witness :
    0 < incEx.length ∧
    ((completeIncidence incEx 5 ⟨2024, 2, 1⟩).2
      = Resp.ok ("Incidence " ++ natToString 5 ++ " marked as completed.") ∧
    (completeIncidence incEx 5 ⟨2024, 2, 1⟩).1.length = incEx.length ∧
    ((∀ i ∈ incEx, i.incidence_id ≠ 5) → (completeIncidence incEx 5 ⟨2024, 2, 1⟩).1 = incEx) ∧
    (completeIncidence incEx 5 ⟨2024, 2, 1⟩).1.get? 0
      = some (if (incEx.get ⟨0, by decide⟩).incidence_id = 5
          then { (incEx.get ⟨0, by decide⟩) with
                 instancestatus := "Completed",
                 date_resolved := some ⟨2024, 2, 1⟩ }
          else incEx.get ⟨0, by decide⟩)) :=
  ⟨by decide, resolve_incidence_amended incEx 5 ⟨2024, 2, 1⟩ 0 (by decide)⟩

/-- Claim C9 (counterexample): resolving an id that is absent from the
table does NOT fail with NotFound: the handler still answers the
success message and the table is unchanged. -/
theorem resolve_incidence_missing_cex :
    (∀ i ∈ incEx, i.incidence_id ≠ 5) ∧
    (completeIncidence incEx 5 ⟨2024, 2, 1⟩).1 = incEx ∧
    (completeIncidence incEx 5 ⟨2024, 2, 1⟩).2
      = Resp.ok "Incidence 5 marked as completed." := by
  decide

/-- Claim C3 (amended): in the live check-out path, elapsed is
`now - last open event timestamp` with NO floor at zero (negative
elapsed is written through). In the legacy clock-route revision the
elapsed is capped at the 12 h 30 min ceiling, and exactly when the raw
elapsed exceeds the ceiling an incidence of type `Auto-checkout >12h30`
(which contains "auto-checkout" case-insensitively) is inserted — with
no explicit status (the code leaves it to the store default). In the
current `routes/fitxatge.js` revision the live path applies no ceiling
at all and never writes an incidence. -/
theorem live_checkout_elapsed_amended
    (employees : List Employee) (db : List FitxRow) (pin : String)
    (today : Date) (nowTime : Nat) (newId : Nat) (emp : Employee) (last : FitxRow)
    (hfind : employees.find? (fun x => decide (x.pin_code = pin)) = some emp)
    (hlast : latestById (db.filter (fun r => decide (r.employee_id = emp.employee_id)))
      = some last)
    (hw : last.working = true) :
    (postCheckinOutLegacy employees db pin today nowTime newId).db
      = db ++ [⟨newId, emp.employee_id, today, nowTime, false, false,
          secondsToTimeJS (jsAdd (sumSecondsForDayLegacy db emp.employee_id today)
            (some (min (tsOf today nowTime - tsOf last.dia last.hora)
              MAX_SESSION_SECONDS_LEGACY))),
          secondsToTimeJS (jsAdd (sumSecondsForWeekLegacy db emp.employee_id today)
            (some (min (tsOf today nowTime - tsOf last.dia last.hora)
              MAX_SESSION_SECONDS_LEGACY))),
          secondsToTimeJS (jsAdd (sumSecondsForMonthLegacy db emp.employee_id today)
            (some (min (tsOf today nowTime - tsOf last.dia last.hora)
              MAX_SESSION_SECONDS_LEGACY))),
          last.vacances⟩] ∧
    (postCheckinOutLegacy employees db pin today nowTime newId).incs
      = (if MAX_SESSION_SECONDS_LEGACY < tsOf today nowTime - tsOf last.dia last.hora
         then [⟨emp.employee_id, "Auto-checkout >12h30", none, none, today⟩]
         else []) ∧
    containsCI "Auto-checkout >12h30" "auto-checkout" = true ∧
    (postCheckinOut employees db pin today nowTime newId).db
      = db ++ [⟨newId, emp.employee_id, today, nowTime, false, false,
          secondsToTimeJS (jsAdd (sumSecondsForDay db emp.employee_id today)
            (some (tsOf today nowTime - tsOf last.dia last.hora))),
          secondsToTimeJS (jsAdd (sumSecondsForWeek db emp.employee_id today)
            (some (tsOf today nowTime - tsOf last.dia last.hora))),
          secondsToTimeJS (jsAdd (sumSecondsForMonth db emp.employee_id today)
            (some (tsOf today nowTime - tsOf last.dia last.hora))),
          last.vacances⟩] ∧
    (postCheckinOut employees db pin today nowTime newId).incs = [] := by
  have hws : ¬ last.working = false := by rw [hw]; decide
  have hsec : (if MAX_SESSION_SECONDS_LEGACY < tsOf today nowTime - tsOf last.dia last.hora
      then MAX_SESSION_SECONDS_LEGACY else tsOf today nowTime - tsOf last.dia last.hora)
      = min (tsOf today nowTime - tsOf last.dia last.hora) MAX_SESSION_SECONDS_LEGACY := by
    split <;> omega
  refine ⟨?_, ?_, by decide, ?_, ?_⟩
  · unfold postCheckinOutLegacy
    simp only [hfind, hlast]
    rw [if_neg hws]
    simp only [hsec]
  · unfold postCheckinOutLegacy
    simp only [hfind, hlast]
    rw [if_neg hws]
  · unfold postCheckinOut
    simp only [hfind, hlast]
    rw [if_neg hws]
  · unfold postCheckinOut
    simp only [hfind, hlast]
    rw [if_neg hws]

theorem live_checkout_elapsed_amended_witness :
    employeesEx.find? (fun x => decide (x.pin_code = "1111")) = some ⟨1, "1111"⟩ ∧
    latestById (dbOpen.filter (fun r => decide (r.employee_id = 1)))
      = some (dbOpen.get ⟨0, by decide⟩) ∧
    (dbOpen.get ⟨0, by decide⟩).working = true ∧
    ((postCheckinOutLegacy employeesEx dbOpen "1111" ⟨2024, 1, 2⟩ 39600 2).db
      = dbOpen ++ [⟨2, 1, ⟨2024, 1, 2⟩, 39600, false, false,
          secondsToTimeJS (jsAdd (sumSecondsForDayLegacy dbOpen 1 ⟨2024, 1, 2⟩)
            (some (min (tsOf ⟨2024, 1, 2⟩ 39600
              - tsOf (dbOpen.get ⟨0, by decide⟩).dia (dbOpen.get ⟨0, by decide⟩).hora)
              MAX_SESSION_SECONDS_LEGACY))),
          secondsToTimeJS (jsAdd (sumSecondsForWeekLegacy dbOpen 1 ⟨2024, 1, 2⟩)
            (some (min (tsOf ⟨2024, 1, 2⟩ 39600
              - tsOf (dbOpen.get ⟨0, by decide⟩).dia (dbOpen.get ⟨0, by decide⟩).hora)
              MAX_SESSION_SECONDS_LEGACY))),
          secondsToTimeJS (jsAdd (sumSecondsForMonthLegacy dbOpen 1 ⟨2024, 1, 2⟩)
            (some (min (tsOf ⟨2024, 1, 2⟩ 39600
              - tsOf (dbOpen.get ⟨0, by decide⟩).dia (dbOpen.get ⟨0, by decide⟩).hora)
              MAX_SESSION_SECONDS_LEGACY))),
          (dbOpen.get ⟨0, by decide⟩).vacances⟩] ∧
    (postCheckinOutLegacy employeesEx dbOpen "1111" ⟨2024, 1, 2⟩ 39600 2).incs
      = (if MAX_SESSION_SECONDS_LEGACY < tsOf ⟨2024, 1, 2⟩ 39600
            - tsOf (dbOpen.get ⟨0, by decide⟩).dia (dbOpen.get ⟨0, by decide⟩).hora
         then [⟨1, "Auto-checkout >12h30", none, none, ⟨2024, 1, 2⟩⟩]
         else []) ∧
    containsCI "Auto-checkout >12h30" "auto-checkout" = true ∧
    (postCheckinOut employeesEx dbOpen "1111" ⟨2024, 1, 2⟩ 39600 2).db
      = dbOpen ++ [⟨2, 1, ⟨2024, 1, 2⟩, 39600, false, false,
          secondsToTimeJS (jsAdd (sumSecondsForDay dbOpen 1 ⟨2024, 1, 2⟩)
            (some (tsOf ⟨2024, 1, 2⟩ 39600
              - tsOf (dbOpen.get ⟨0, by decide⟩).dia (dbOpen.get ⟨0, by decide⟩).hora))),
          secondsToTimeJS (jsAdd (sumSecondsForWeek dbOpen 1 ⟨2024, 1, 2⟩)
            (some (tsOf ⟨2024, 1, 2⟩ 39600
              - tsOf (dbOpen.get ⟨0, by decide⟩).dia (dbOpen.get ⟨0, by decide⟩).hora))),
          secondsToTimeJS (jsAdd (sumSecondsForMonth dbOpen 1 ⟨2024, 1, 2⟩)
            (some (tsOf ⟨2024, 1, 2⟩ 39600
              - tsOf (dbOpen.get ⟨0, by decide⟩).dia (dbOpen.get ⟨0, by decide⟩).hora))),
          (dbOpen.get ⟨0, by decide⟩).vacances⟩] ∧
    (postCheckinOut employeesEx dbOpen "1111" ⟨2024, 1, 2⟩ 39600 2).incs = []) :=
  ⟨by decide, by decide, by decide,
    live_checkout_elapsed_amended employeesEx dbOpen "1111" ⟨2024, 1, 2⟩ 39600 2
      ⟨1, "1111"⟩ (dbOpen.get ⟨0, by decide⟩) (by decide) (by decide) (by decide)⟩

/-- Claim C3 (counterexample): the live check-out path does not treat
negative elapsed as 0 and (in the current revision) applies no ceiling:
with the open check-in of `dbOpen` at 2024-01-02 10:00:00, a legacy
check-out at 09:58:20 the same day writes the NEGATIVE duration
`-1:-2:-40` instead of `00:00:00`, and a current-revision check-out
20 hours later writes the uncapped `20:00:00` and inserts no
incidence. -/
theorem live_checkout_clamp_cex :
    ((postCheckinOutLegacy employeesEx dbOpen "1111" ⟨2024, 1, 2⟩ 35900 2).db.getLast?).map
        (fun r => r.hores_diaries) = some "-1:-2:-40" ∧
    ¬ ((postCheckinOutLegacy employeesEx dbOpen "1111" ⟨2024, 1, 2⟩ 35900 2).db.getLast?).map
        (fun r => r.hores_diaries) = some "00:00:00" ∧
    ((postCheckinOut employeesEx dbOpen "1111" ⟨2024, 1, 3⟩ 21600 2).db.getLast?).map
        (fun r => r.hores_diaries) = some "20:00:00" ∧
    (postCheckinOut employeesEx dbOpen "1111" ⟨2024, 1, 3⟩ 21600 2).incs = [] := by
  decide

/-! ## Lemmas about the auto-checkout sweep. -/

theorem forceLongSessionsGo_cons (today : Date) (nowTime : Nat) (s : OpenSession)
    (rest : List OpenSession) (db : List FitxRow) (incs : List NewIncidence) :
    forceLongSessionsGo today nowTime (s :: rest) db incs
      = if tsOf today nowTime - tsOf s.dia s.hora ≤ MAX_SESSION_SECONDS
        then forceLongSessionsGo today nowTime rest db incs
        else forceLongSessionsGo today nowTime rest
          (db ++ [⟨nextId db, s.employee_id, today, nowTime, false, false,
            secondsToTimeJS (jsAdd (sumSecondsForDay db s.employee_id today)
              (some MAX_SESSION_SECONDS)),
            secondsToTimeJS (jsAdd (sumSecondsForWeek db s.employee_id today)
              (some MAX_SESSION_SECONDS)),
            secondsToTimeJS (jsAdd (sumSecondsForMonth db s.employee_id today)
              (some MAX_SESSION_SECONDS)), 0⟩])
          (incs ++ [⟨s.employee_id, "Auto-checkout >10h (no manual checkout)",
            some "Employee did not check out after 10 hours. Automatic checkout applied.",
            some "Open", today⟩]) := rfl

theorem rowsOf_append_other (db : List FitxRow) (row : FitxRow) (e : Nat)
    (h : ¬ row.employee_id = e) :
    rowsOf (db ++ [row]) e = rowsOf db e := by
  unfold rowsOf
  rw [List.filter_append]
  simp [h]

theorem rowsOf_append_same (db : List FitxRow) (row : FitxRow) (e : Nat)
    (h : row.employee_id = e) :
    rowsOf (db ++ [row]) e = rowsOf db e ++ [row] := by
  unfold rowsOf
  rw [List.filter_append]
  simp [h]

theorem sumSecondsForDay_append_other (db : List FitxRow) (row : FitxRow) (e : Nat)
    (d : Date) (h : ¬ row.employee_id = e) :
    sumSecondsForDay (db ++ [row]) e d = sumSecondsForDay db e d := by
  unfold sumSecondsForDay
  rw [List.filter_append]
  simp [h]

theorem sumSecondsForWeek_append_other (db : List FitxRow) (row : FitxRow) (e : Nat)
    (d : Date) (h : ¬ row.employee_id = e) :
    sumSecondsForWeek (db ++ [row]) e d = sumSecondsForWeek db e d := by
  unfold sumSecondsForWeek
  dsimp only
  rw [List.filter_append]
  simp [h]

theorem sumSecondsForMonth_append_other (db : List FitxRow) (row : FitxRow) (e : Nat)
    (d : Date) (h : ¬ row.employee_id = e) :
    sumSecondsForMonth (db ++ [row]) e d = sumSecondsForMonth db e d := by
  unfold sumSecondsForMonth
  dsimp only
  rw [List.filter_append]
  simp [h]

theorem sweepGo_untouched (today : Date) (nowTime : Nat) (rest : List OpenSession)
    (db : List FitxRow) (incs : List NewIncidence) (e : Nat)
    (h : ∀ x ∈ rest, ¬ x.employee_id = e) :
    rowsOf (forceLongSessionsGo today nowTime rest db incs).1 e = rowsOf db e ∧
    (forceLongSessionsGo today nowTime rest db incs).2.filter
        (fun i => decide (i.worker_id = e))
      = incs.filter (fun i => decide (i.worker_id = e)) := by
  induction rest generalizing db incs with
  | nil => exact ⟨rfl, rfl⟩
  | cons s rest ih =>
      rw [forceLongSessionsGo_cons]
      have hs : ¬ s.employee_id = e := h s (by simp)
      split
      · exact ih db incs (fun x hx => h x (by simp [hx]))
      · obtain ⟨h1, h2⟩ := ih _ _ (fun x hx => h x (by simp [hx]))
        refine ⟨?_, ?_⟩
        · rw [h1, rowsOf_append_other _ _ _ hs]
        · rw [h2, List.filter_append]
          simp [hs]

/-- Behaviour of one sweep, per open session, relative to the table and
incidence accumulator at sweep start. -/
theorem sweepGo_spec (today : Date) (nowTime : Nat) (sessions : List OpenSession)
    (db : List FitxRow) (incs : List NewIncidence)
    (hdist : sessions.Pairwise (fun a b => ¬ a.employee_id = b.employee_id))
    (r : OpenSession) (hr : r ∈ sessions) :
    (tsOf today nowTime - tsOf r.dia r.hora ≤ MAX_SESSION_SECONDS →
      rowsOf (forceLongSessionsGo today nowTime sessions db incs).1 r.employee_id
        = rowsOf db r.employee_id ∧
      (forceLongSessionsGo today nowTime sessions db incs).2.filter
          (fun i => decide (i.worker_id = r.employee_id))
        = incs.filter (fun i => decide (i.worker_id = r.employee_id))) ∧
    (MAX_SESSION_SECONDS < tsOf today nowTime - tsOf r.dia r.hora →
      (∃ row : FitxRow,
        rowsOf (forceLongSessionsGo today nowTime sessions db incs).1 r.employee_id
          = rowsOf db r.employee_id ++ [row] ∧
        row.employee_id = r.employee_id ∧ row.dia = today ∧ row.hora = nowTime ∧
        row.working = false ∧ row.active = false ∧
        row.hores_diaries = secondsToTimeJS
          (jsAdd (sumSecondsForDay db r.employee_id today) (some MAX_SESSION_SECONDS)) ∧
        row.hores_setmanals = secondsToTimeJS
          (jsAdd (sumSecondsForWeek db r.employee_id today) (some MAX_SESSION_SECONDS)) ∧
        row.hores_mensuals = secondsToTimeJS
          (jsAdd (sumSecondsForMonth db r.employee_id today) (some MAX_SESSION_SECONDS))) ∧
      (forceLongSessionsGo today nowTime sessions db incs).2.filter
          (fun i => decide (i.worker_id = r.employee_id))
        = incs.filter (fun i => decide (i.worker_id = r.employee_id))
          ++ [⟨r.employee_id, "Auto-checkout >10h (no manual checkout)",
              some "Employee did not check out after 10 hours. Automatic checkout applied.",
              some "Open", today⟩]) := by
  induction sessions generalizing db incs with
  | nil => simp at hr
  | cons s rest ih =>
      rw [List.pairwise_cons] at hdist
      rcases List.mem_cons.mp hr with hr | hr
      · subst hr
        rw [forceLongSessionsGo_cons]
        constructor
        · intro hle
          rw [if_pos hle]
          exact sweepGo_untouched today nowTime rest db incs r.employee_id
            (fun x hx => fun e => (hdist.1 x hx) e.symm)
        · intro hgt
          rw [if_neg (by omega)]
          obtain ⟨h1, h2⟩ := sweepGo_untouched today nowTime rest _ _ r.employee_id
            (fun x hx => fun e => (hdist.1 x hx) e.symm)
          refine ⟨⟨⟨nextId db, r.employee_id, today, nowTime, false, false,
              secondsToTimeJS (jsAdd (sumSecondsForDay db r.employee_id today)
                (some MAX_SESSION_SECONDS)),
              secondsToTimeJS (jsAdd (sumSecondsForWeek db r.employee_id today)
                (some MAX_SESSION_SECONDS)),
              secondsToTimeJS (jsAdd (sumSecondsForMonth db r.employee_id today)
                (some MAX_SESSION_SECONDS)), 0⟩,
              ?_, rfl, rfl, rfl, rfl, rfl, rfl, rfl, rfl⟩, ?_⟩
          · rw [h1, rowsOf_append_same _ _ _ rfl]
          · rw [h2, List.filter_append]
            simp
      · have hse : ¬ s.employee_id = r.employee_id := hdist.1 r hr
        rw [forceLongSessionsGo_cons]
        split
        · exact ih db incs hdist.2 hr
        · obtain ⟨c1, c2⟩ := ih
            (db ++ [⟨nextId db, s.employee_id, today, nowTime, false, false,
              secondsToTimeJS (jsAdd (sumSecondsForDay db s.employee_id today)
                (some MAX_SESSION_SECONDS)),
              secondsToTimeJS (jsAdd (sumSecondsForWeek db s.employee_id today)
                (some MAX_SESSION_SECONDS)),
              secondsToTimeJS (jsAdd (sumSecondsForMonth db s.employee_id today)
                (some MAX_SESSION_SECONDS)), 0⟩])
            (incs ++ [⟨s.employee_id, "Auto-checkout >10h (no manual checkout)",
              some "Employee did not check out after 10 hours. Automatic checkout applied.",
              some "Open", today⟩])
            hdist.2 hr
          have hfi : (incs ++ [(⟨s.employee_id,
              "Auto-checkout >10h (no manual checkout)",
              some "Employee did not check out after 10 hours. Automatic checkout applied.",
              some "Open", today⟩ : NewIncidence)]).filter
                (fun i => decide (i.worker_id = r.employee_id))
              = incs.filter (fun i => decide (i.worker_id = r.employee_id)) := by
            rw [List.filter_append]
            simp [hse]
          constructor
          · intro hle
            obtain ⟨d1, d2⟩ := c1 hle
            rw [rowsOf_append_other _ _ _ hse] at d1
            rw [hfi] at d2
            exact ⟨d1, d2⟩
          · intro hgt
            obtain ⟨⟨row, d1, dfs⟩, d2⟩ := c2 hgt
            rw [rowsOf_append_other _ _ _ hse] at d1
            rw [sumSecondsForDay_append_other _ _ _ _ hse,
              sumSecondsForWeek_append_other _ _ _ _ hse,
              sumSecondsForMonth_append_other _ _ _ _ hse] at dfs
            rw [hfi] at d2
            exact ⟨⟨row, d1, dfs⟩, d2⟩

/-- Claim C4: a Session Guard sweep leaves every open session whose
elapsed time is at or under the 10-hour ceiling untouched (no new
ledger row and no incidence for that employee this cycle), and for
every open session whose elapsed exceeds the ceiling it inserts exactly
one synthetic check-out whose duration fields equal the employee's
current day/week/month totals plus exactly the ceiling value (the
excess beyond the ceiling is discarded), together with exactly one
incidence whose type contains "auto-checkout" (case-insensitively; the
literal type is `Auto-checkout >10h (no manual checkout)`) and whose
status is `Open`. Sessions are per-employee (distinct employee ids),
as `get_open_sessions` returns the latest open row per employee. -/
theorem session_guard_sweep (today : Date) (nowTime : Nat)
    (sessions : List OpenSession) (db : List FitxRow)
    (hdist : sessions.Pairwise (fun a b => ¬ a.employee_id = b.employee_id))
    (r : OpenSession) (hr : r ∈ sessions) :
    (tsOf today nowTime - tsOf r.dia r.hora ≤ MAX_SESSION_SECONDS →
      rowsOf (forceLongSessions today nowTime sessions db).1 r.employee_id
        = rowsOf db r.employee_id ∧
      (forceLongSessions today nowTime sessions db).2.filter
          (fun i => decide (i.worker_id = r.employee_id)) = []) ∧
    (MAX_SESSION_SECONDS < tsOf today nowTime - tsOf r.dia r.hora →
      (∃ row : FitxRow,
        rowsOf (forceLongSessions today nowTime sessions db).1 r.employee_id
          = rowsOf db r.employee_id ++ [row] ∧
        row.employee_id = r.employee_id ∧ row.dia = today ∧ row.hora = nowTime ∧
        row.working = false ∧ row.active = false ∧
        row.hores_diaries = secondsToTimeJS
          (jsAdd (sumSecondsForDay db r.employee_id today) (some MAX_SESSION_SECONDS)) ∧
        row.hores_setmanals = secondsToTimeJS
          (jsAdd (sumSecondsForWeek db r.employee_id today) (some MAX_SESSION_SECONDS)) ∧
        row.hores_mensuals = secondsToTimeJS
          (jsAdd (sumSecondsForMonth db r.employee_id today) (some MAX_SESSION_SECONDS))) ∧
      (forceLongSessions today nowTime sessions db).2.filter
          (fun i => decide (i.worker_id = r.employee_id))
        = [⟨r.employee_id, "Auto-checkout >10h (no manual checkout)",
            some "Employee did not check out after 10 hours. Automatic checkout applied.",
            some "Open", today⟩] ∧
      containsCI "Auto-checkout >10h (no manual checkout)" "auto-checkout" = true) := by
  have h := sweepGo_spec today nowTime sessions db [] hdist r hr
  refine ⟨fun hle => ?_, fun hgt => ?_⟩
  · obtain ⟨d1, d2⟩ := h.1 hle
    exact ⟨d1, by simpa using d2⟩
  · obtain ⟨d1, d2⟩ := h.2 hgt
    exact ⟨d1, by simpa using d2, by decide⟩

theorem session_guard_sweep_witness :
    sessEx.Pairwise (fun a b => ¬ a.employee_id = b.employee_id) ∧
    (⟨1, ⟨2024, 1, 1⟩, 28800⟩ : OpenSession) ∈ sessEx ∧
    ((tsOf ⟨2024, 1, 1⟩ 82800 - tsOf ⟨2024, 1, 1⟩ 28800 ≤ MAX_SESSION_SECONDS →
      rowsOf (forceLongSessions ⟨2024, 1, 1⟩ 82800 sessEx []).1 1 = rowsOf [] 1 ∧
      (forceLongSessions ⟨2024, 1, 1⟩ 82800 sessEx []).2.filter
          (fun i => decide (i.worker_id = 1)) = []) ∧
    (MAX_SESSION_SECONDS < tsOf ⟨2024, 1, 1⟩ 82800 - tsOf ⟨2024, 1, 1⟩ 28800 →
      (∃ row : FitxRow,
        rowsOf (forceLongSessions ⟨2024, 1, 1⟩ 82800 sessEx []).1 1
          = rowsOf [] 1 ++ [row] ∧
        row.employee_id = 1 ∧ row.dia = ⟨2024, 1, 1⟩ ∧ row.hora = 82800 ∧
        row.working = false ∧ row.active = false ∧
        row.hores_diaries = secondsToTimeJS
          (jsAdd (sumSecondsForDay [] 1 ⟨2024, 1, 1⟩) (some MAX_SESSION_SECONDS)) ∧
        row.hores_setmanals = secondsToTimeJS
          (jsAdd (sumSecondsForWeek [] 1 ⟨2024, 1, 1⟩) (some MAX_SESSION_SECONDS)) ∧
        row.hores_mensuals = secondsToTimeJS
          (jsAdd (sumSecondsForMonth [] 1 ⟨2024, 1, 1⟩) (some MAX_SESSION_SECONDS))) ∧
      (forceLongSessions ⟨2024, 1, 1⟩ 82800 sessEx []).2.filter
          (fun i => decide (i.worker_id = 1))
        = [⟨1, "Auto-checkout >10h (no manual checkout)",
            some "Employee did not check out after 10 hours. Automatic checkout applied.",
            some "Open", ⟨2024, 1, 1⟩⟩] ∧
      containsCI "Auto-checkout >10h (no manual checkout)" "auto-checkout" = true)) :=
  ⟨by decide, by decide,
    session_guard_sweep ⟨2024, 1, 1⟩ 82800 sessEx [] (by decide)
      ⟨1, ⟨2024, 1, 1⟩, 28800⟩ (by decide)⟩

theorem nodup_ids_filter (db : List FitxRow) (p : FitxRow → Bool)
    (h : (db.map (fun r => r.id)).Nodup) :
    ((db.filter p).map (fun r => r.id)).Nodup :=
  ((db.filter_sublist).map (fun r => r.id)).nodup h

/-- Claim C2 (amended): the editor routes — insert (POST), edit (PUT)
and delete (DELETE) — each await `recomputeHours` for the owning
employee before responding, so the table they answer with is a fixpoint
of the accumulator; deleting a check-out from the middle of an
employee's history reflows the duration fields of later events (in
`dbDel`, deleting check-out id 2 changes id 4's daily total from
02:00:00 to 01:00:00). The live check-in/check-out endpoint, however,
does NOT invoke the accumulator (see the counterexample). -/
theorem editor_mutations_recompute (db : List FitxRow) (row : FitxRow)
    (id newId e : Nat) (diaP : Date) (horaP : Nat) (wP : Bool)
    (diaU : Date) (horaU : Nat) (wU : Bool)
    (hnd : (db.map (fun r => r.id)).Nodup)
    (hnew : newId ∉ db.map (fun r => r.id))
    (hfind : db.find? (fun r => decide (r.id = id)) = some row) :
    recomputeHours e (postEditor db e diaP horaP wP newId).1
      = (postEditor db e diaP horaP wP newId).1 ∧
    recomputeHours row.employee_id (putEditor db id diaU horaU wU).1
      = (putEditor db id diaU horaU wU).1 ∧
    recomputeHours row.employee_id (deleteEditor db id).1
      = (deleteEditor db id).1 ∧
    ((deleteEditor dbDel 2).1.find? (fun r => decide (r.id = 4))).map
        (fun r => r.hores_diaries) = some "01:00:00" ∧
    (dbDel.find? (fun r => decide (r.id = 4))).map
        (fun r => r.hores_diaries) = some "02:00:00" := by
  refine ⟨?_, ?_, ?_, by decide, by decide⟩
  · show recomputeHours e (recomputeHours e _) = recomputeHours e _
    apply recomputeHours_fix
    apply nodup_ids_filter
    rw [List.map_append]
    rw [List.nodup_append]
    refine ⟨hnd, by simp, ?_⟩
    intro a ha hb
    simp only [List.map_cons, List.map_nil, List.mem_singleton] at hb
    subst hb
    exact hnew ha
  · unfold putEditor
    simp only [hfind]
    show recomputeHours _ (recomputeHours _ _) = recomputeHours _ _
    apply recomputeHours_fix
    apply nodup_ids_filter
    have hids : ((db.map (fun r => if r.id = id
        then { r with dia := diaU, hora := horaU, working := wU } else r)).map
          (fun r => r.id)) = db.map (fun r => r.id) := by
      rw [List.map_map]
      refine List.map_congr_left (fun r _ => ?_)
      dsimp only [Function.comp]
      split <;> rfl
    rw [hids]
    exact hnd
  · unfold deleteEditor
    simp only [hfind]
    show recomputeHours _ (recomputeHours _ _) = recomputeHours _ _
    apply recomputeHours_fix
    apply nodup_ids_filter
    exact nodup_ids_filter db _ hnd

theorem editor_mutations_recompute_witness :
    (dbDel.map (fun r => r.id)).Nodup ∧
    (5 ∉ dbDel.map (fun r => r.id)) ∧
    dbDel.find? (fun r => decide (r.id = 2))
      = some ⟨2, 1, ⟨2024, 1, 2⟩, 36000, false, false,
          "01:00:00", "01:00:00", "01:00:00", 0⟩ ∧
    (recomputeHours 1 (postEditor dbDel 1 ⟨2024, 1, 3⟩ 32400 true 5).1
      = (postEditor dbDel 1 ⟨2024, 1, 3⟩ 32400 true 5).1 ∧
    recomputeHours (FitxRow.employee_id ⟨2, 1, ⟨2024, 1, 2⟩, 36000, false, false,
          "01:00:00", "01:00:00", "01:00:00", 0⟩)
        (putEditor dbDel 2 ⟨2024, 1, 2⟩ 37800 false).1
      = (putEditor dbDel 2 ⟨2024, 1, 2⟩ 37800 false).1 ∧
    recomputeHours (FitxRow.employee_id ⟨2, 1, ⟨2024, 1, 2⟩, 36000, false, false,
          "01:00:00", "01:00:00", "01:00:00", 0⟩) (deleteEditor dbDel 2).1
      = (deleteEditor dbDel 2).1 ∧
    ((deleteEditor dbDel 2).1.find? (fun r => decide (r.id = 4))).map
        (fun r => r.hores_diaries) = some "01:00:00" ∧
    (dbDel.find? (fun r => decide (r.id = 4))).map
        (fun r => r.hores_diaries) = some "02:00:00") :=
  ⟨by decide, by decide, by decide,
    editor_mutations_recompute dbDel
      ⟨2, 1, ⟨2024, 1, 2⟩, 36000, false, false,
        "01:00:00", "01:00:00", "01:00:00", 0⟩ 2 5 1
      ⟨2024, 1, 3⟩ 32400 true ⟨2024, 1, 2⟩ 37800 false
      (by decide) (by decide) (by decide)⟩

/-- Claim C2 (counterexample): the live check-in/check-out endpoint does
NOT trigger an awaited Hours Accumulator recomputation: `dbSun` is a
fixpoint of `recomputeHours`, yet the table the live check-out responds
with is not — a recomputation run on it would still change it (the
endpoint's Sunday-started weekly window disagrees with the ISO-week
replay), so the response completes without the accumulator having
run. -/
theorem live_endpoint_no_recompute_cex :
    recomputeHours 1 dbSun = dbSun ∧
    ¬ recomputeHours 1 (postCheckinOut employeesEx dbSun "1111" ⟨2024, 1, 8⟩ 36000 4).db
        = (postCheckinOut employeesEx dbSun "1111" ⟨2024, 1, 8⟩ 36000 4).db := by
  decide

/-- Claim C10 (counterexample): even when every stored check-out row
carries the correct cumulative totals (`dbSun` is recompute-stable),
the weekly duration field the live check-out writes differs from what a
full replay would assign to that same new row: checking out on Monday
2024-01-08 after a Sunday 2024-01-07 session, the live path's
Sunday-started week window carries the Sunday hour over (02:00:00)
while the replay resets at the ISO Monday week boundary (01:00:00). -/
theorem live_checkout_week_cex :
    recomputeHours 1 dbSun = dbSun ∧
    ((postCheckinOut employeesEx dbSun "1111" ⟨2024, 1, 8⟩ 36000 4).db.getLast?).map
        (fun r => r.hores_setmanals) = some "02:00:00" ∧
    ((recomputeRows (postCheckinOut employeesEx dbSun "1111"
        ⟨2024, 1, 8⟩ 36000 4).db).getLast?).map
        (fun r => r.hores_setmanals) = some "01:00:00" := by
  decide

/-! ## Lemmas about `latestById` and date keys. -/

theorem latestById_cons (r : FitxRow) (rest : List FitxRow) :
    latestById (r :: rest)
      = match latestById rest with
        | none => some r
        | some a => if a.id < r.id then some r else some a := rfl

theorem latestById_mem (l : List FitxRow) (a : FitxRow)
    (h : latestById l = some a) : a ∈ l := by
  induction l with
  | nil => simp [latestById] at h
  | cons r rest ih =>
      cases hacc : latestById rest with
      | none =>
          have heq : latestById (r :: rest) = some r := by
            rw [latestById_cons, hacc]
          rw [heq] at h
          injection h with h3
          exact (by simp [← h3])
      | some b =>
          have heq : latestById (r :: rest)
              = if b.id < r.id then some r else some b := by
            rw [latestById_cons, hacc]
          rw [heq] at h
          split at h
          · injection h with h3
            exact (by simp [← h3])
          · injection h with h3
            exact List.mem_cons_of_mem r (ih (h3 ▸ hacc))

theorem latestById_append_max (l : List FitxRow) (x : FitxRow)
    (h : ∀ y ∈ l, y.id < x.id) :
    latestById (l ++ [x]) = some x := by
  induction l with
  | nil => rfl
  | cons r rest ih =>
      rw [List.cons_append, latestById_cons,
        ih (fun y hy => h y (by simp [hy]))]
      show (if x.id < r.id then some r else some x) = some x
      rw [if_neg (by have := h r (by simp); omega)]

theorem latestById_getLast (l : List FitxRow)
    (h : l.Pairwise (fun a b => a.id < b.id)) :
    latestById l = l.getLast? := by
  induction l using List.reverseRecOn with
  | nil => rfl
  | append_singleton ys x ih =>
      rw [List.pairwise_append] at h
      rw [latestById_append_max ys x (fun y hy => h.2.2 y hy x (by simp)),
        List.getLast?_concat]

theorem daysInMonth_bounds (y : Int) (m : Nat) :
    1 ≤ daysInMonth y m ∧ daysInMonth y m ≤ 31 := by
  unfold daysInMonth
  split
  · split <;> omega
  · split <;> omega

theorem dateKey_inj (a b : Date) (ha : validDate a) (hb : validDate b)
    (h : dateKey a = dateKey b) : a = b := by
  obtain ⟨ha1, ha2, ha3, ha4⟩ := ha
  obtain ⟨hb1, hb2, hb3, hb4⟩ := hb
  have ha5 := (daysInMonth_bounds a.year a.month).2
  have hb5 := (daysInMonth_bounds b.year b.month).2
  unfold dateKey at h
  cases a with
  | mk ay am ad =>
      cases b with
      | mk b_y bm bd =>
          simp only [Date.mk.injEq]
          simp only [] at h ha1 ha2 ha3 ha4 ha5 hb1 hb2 hb3 hb4 hb5
          omega

theorem month_window_iff (x d : Date) (hx : validDate x) (hd : validDate d) :
    (dateLE ⟨d.year, d.month, 1⟩ x ∧
     dateLE x ⟨d.year, d.month, daysInMonth d.year d.month⟩)
      ↔ monthKey x = monthKey d := by
  obtain ⟨hx1, hx2, hx3, hx4⟩ := hx
  obtain ⟨hd1, hd2, hd3, hd4⟩ := hd
  have hx5 := (daysInMonth_bounds x.year x.month).2
  have hd5 := (daysInMonth_bounds d.year d.month).2
  unfold dateLE dateKey monthKey
  dsimp only
  simp only [Prod.mk.injEq]
  constructor
  · intro h
    obtain ⟨h1, h2⟩ := h
    constructor <;> omega
  · intro h
    obtain ⟨h1, h2⟩ := h
    rw [h1, h2] at hx4
    constructor <;> omega

theorem recomputeGo_concat (st : RecState) (ys : List FitxRow) (r : FitxRow) :
    recomputeGo st (ys ++ [r])
      = recomputeGo st ys ++ [(recomputeStep (replayState st ys) r).2] := by
  rw [recomputeGo_append]
  rfl

theorem replayState_concat (st : RecState) (ys : List FitxRow) (r : FitxRow) :
    replayState st (ys ++ [r]) = (recomputeStep (replayState st ys) r).1 := by
  rw [replayState_append]
  rfl

theorem timeToSeconds_roundTrip_int (n : Int) (h : 0 ≤ n) :
    timeToSeconds (secondsToTime n) = some n := by
  rw [show n = ((n.toNat : Nat) : Int) from (Int.toNat_of_nonneg h).symm]
  exact timeToSeconds_roundTrip n.toNat

/-- The latest check-out row of day `d` in a replayed ledger stores
exactly the running daily total the replay carries at the end (after
the reset rule for day `d`): the value the live check-out path reads
with `sumSecondsForDay`. -/
theorem sumDay_replay (e : Nat) (d : Date) (base : List FitxRow)
    (hemp : ∀ x ∈ base, x.employee_id = e)
    (hord : base.Pairwise (fun a b => dateKey a.dia ≤ dateKey b.dia))
    (hids : base.Pairwise (fun a b => a.id < b.id))
    (hle : ∀ x ∈ base, dateKey x.dia ≤ dateKey d)
    (hval : ∀ x ∈ base, validDate x.dia)
    (hvd : validDate d) :
    sumSecondsForDay (recomputeRows base) e d
      = some (if (replayState recInit base).currentDay = some d
              then (replayState recInit base).dailySecs else 0) := by
  induction base using List.reverseRecOn with
  | nil =>
      simp [sumSecondsForDay, recomputeRows, recomputeGo, latestById, replayState,
        recInit]
  | append_singleton ys r ih =>
      have hemp2 : ∀ x ∈ ys, x.employee_id = e := fun x hx => hemp x (by simp [hx])
      have hordp := List.pairwise_append.mp hord
      have hidsp := List.pairwise_append.mp hids
      have hcross : ∀ x ∈ ys, dateKey x.dia ≤ dateKey r.dia :=
        fun x hx => hordp.2.2 x hx r (by simp)
      have hcrossid : ∀ x ∈ ys, x.id < r.id :=
        fun x hx => hidsp.2.2 x hx r (by simp)
      have hle2 : ∀ x ∈ ys, dateKey x.dia ≤ dateKey d := fun x hx => hle x (by simp [hx])
      have hval2 : ∀ x ∈ ys, validDate x.dia := fun x hx => hval x (by simp [hx])
      have hler := hle r (by simp)
      have hvr := hval r (by simp)
      have hre := hemp r (by simp)
      have ihy := ih hemp2 hordp.1 hidsp.1 hle2 hval2
      obtain ⟨f1, f2, f3, f4, f5, -⟩ :=
        recomputeStep_row_fields (replayState recInit ys) r
      unfold sumSecondsForDay at ihy ⊢
      rw [show recomputeRows (ys ++ [r])
          = recomputeRows ys ++ [(recomputeStep (replayState recInit ys) r).2]
          from recomputeGo_concat recInit ys r,
        List.filter_append, replayState_concat]
      by_cases hcase : r.dia = d
      · cases hw : r.working with
        | true =>
            rw [show List.filter (fun row => decide (row.employee_id = e ∧
                  row.dia = d ∧ row.working = false))
                  [(recomputeStep (replayState recInit ys) r).2] = []
                from by simp [f5, hw], List.append_nil, ihy,
              recomputeStep_st_true _ _ hw]
            congr 1
            dsimp only
            rw [resetTotals_currentDay, resetTotals_dailySecs, hcase, if_pos rfl]
        | false =>
            have hpt : decide
                (((recomputeStep (replayState recInit ys) r).2).employee_id = e ∧
                 ((recomputeStep (replayState recInit ys) r).2).dia = d ∧
                 ((recomputeStep (replayState recInit ys) r).2).working = false)
                  = true := by
              simp [f2, f3, f5, hre, hcase, hw]
            rw [show List.filter (fun row => decide (row.employee_id = e ∧
                  row.dia = d ∧ row.working = false))
                  [(recomputeStep (replayState recInit ys) r).2]
                = [(recomputeStep (replayState recInit ys) r).2]
              from by rw [List.filter_cons, hpt]; rfl]
            rw [latestById_append_max _ _ ?hmax]
            case hmax =>
              intro y hy
              have hy2 := List.mem_of_mem_filter hy
              obtain ⟨orig, ho, hid, -, -, -, -⟩ := mem_recomputeGo recInit ys y hy2
              rw [hid, f1]
              exact hcrossid orig ho
            have hnny := replayState_nonneg recInit ys ⟨le_refl 0, le_refl 0, le_refl 0⟩
            have hd0 : 0 ≤ (resetTotals (replayState recInit ys) r.dia).dailySecs := by
              rw [resetTotals_dailySecs]
              split
              · exact hnny.1
              · exact le_refl 0
            have hce := checkoutElapsed_nonneg
              (resetTotals (replayState recInit ys) r.dia).lastCheckIn (tsOf r.dia r.hora)
            have hsum : 0 ≤ (resetTotals (replayState recInit ys) r.dia).dailySecs
                + checkoutElapsed (resetTotals (replayState recInit ys) r.dia).lastCheckIn
                    (tsOf r.dia r.hora) := by omega
            show timeToSeconds
                ((recomputeStep (replayState recInit ys) r).2).hores_diaries
              = some (if ((recomputeStep (replayState recInit ys) r).1).currentDay
                      = some d
                  then ((recomputeStep (replayState recInit ys) r).1).dailySecs else 0)
            rw [recomputeStep_out_false _ _ hw, recomputeStep_st_false _ _ hw]
            dsimp only [setFields]
            rw [timeToSeconds_roundTrip_int _ hsum, resetTotals_currentDay, hcase,
              if_pos rfl]
      · have hkey : ¬ dateKey r.dia = dateKey d :=
          fun he => hcase (dateKey_inj _ _ hvr hvd he)
        have hlt : dateKey r.dia < dateKey d := lt_of_le_of_ne hler hkey
        have hfo : List.filter (fun row => decide (row.employee_id = e ∧
            row.dia = d ∧ row.working = false)) (recomputeRows ys) = [] := by
          rw [List.filter_eq_nil_iff]
          intro x hx
          obtain ⟨orig, ho, -, -, hdia, -, -⟩ := mem_recomputeGo recInit ys x hx
          have h1 := hcross orig ho
          have h2 : ¬ x.dia = d := by
            intro he
            rw [hdia] at he
            rw [he] at h1
            omega
          simp [h2]
        rw [hfo]
        rw [show List.filter (fun row => decide (row.employee_id = e ∧
              row.dia = d ∧ row.working = false))
              [(recomputeStep (replayState recInit ys) r).2] = []
            from by simp [f3, hcase], List.nil_append]
        rw [show latestById ([] : List FitxRow) = none from rfl]
        rw [step_state_currentDay]
        rw [if_neg (by simp [hcase])]

theorem month_between (a b c : Date) (ha : validDate a) (hb : validDate b)
    (hc : validDate c) (h1 : dateKey a ≤ dateKey b) (h2 : dateKey b ≤ dateKey c)
    (h3 : monthKey a = monthKey c) : monthKey b = monthKey c := by
  obtain ⟨ha1, ha2, ha3, ha4⟩ := ha
  obtain ⟨hb1, hb2, hb3, hb4⟩ := hb
  obtain ⟨hc1, hc2, hc3, hc4⟩ := hc
  have ha5 := (daysInMonth_bounds a.year a.month).2
  have hb5 := (daysInMonth_bounds b.year b.month).2
  have hc5 := (daysInMonth_bounds c.year c.month).2
  unfold dateKey at h1 h2
  unfold monthKey at h3 ⊢
  simp only [Prod.mk.injEq] at h3 ⊢
  obtain ⟨h31, h32⟩ := h3
  constructor <;> omega

/-- The latest check-out row inside day `d`'s calendar-month window of
a replayed ledger stores exactly the running monthly total the replay
carries at the end: the value the live check-out path reads with
`sumSecondsForMonth`. -/
theorem sumMonth_replay (e : Nat) (d : Date) (base : List FitxRow)
    (hemp : ∀ x ∈ base, x.employee_id = e)
    (hord : base.Pairwise (fun a b => dateKey a.dia ≤ dateKey b.dia))
    (hids : base.Pairwise (fun a b => a.id < b.id))
    (hle : ∀ x ∈ base, dateKey x.dia ≤ dateKey d)
    (hval : ∀ x ∈ base, validDate x.dia)
    (hvd : validDate d) :
    sumSecondsForMonth (recomputeRows base) e d
      = some (if (replayState recInit base).currentMonth = some (monthKey d)
              then (replayState recInit base).monthlySecs else 0) := by
  induction base using List.reverseRecOn with
  | nil =>
      simp [sumSecondsForMonth, recomputeRows, recomputeGo, latestById, replayState,
        recInit]
  | append_singleton ys r ih =>
      have hemp2 : ∀ x ∈ ys, x.employee_id = e := fun x hx => hemp x (by simp [hx])
      have hordp := List.pairwise_append.mp hord
      have hidsp := List.pairwise_append.mp hids
      have hcross : ∀ x ∈ ys, dateKey x.dia ≤ dateKey r.dia :=
        fun x hx => hordp.2.2 x hx r (by simp)
      have hcrossid : ∀ x ∈ ys, x.id < r.id :=
        fun x hx => hidsp.2.2 x hx r (by simp)
      have hle2 : ∀ x ∈ ys, dateKey x.dia ≤ dateKey d := fun x hx => hle x (by simp [hx])
      have hval2 : ∀ x ∈ ys, validDate x.dia := fun x hx => hval x (by simp [hx])
      have hler := hle r (by simp)
      have hvr := hval r (by simp)
      have hre := hemp r (by simp)
      have ihy := ih hemp2 hordp.1 hidsp.1 hle2 hval2
      obtain ⟨f1, f2, f3, f4, f5, -⟩ :=
        recomputeStep_row_fields (replayState recInit ys) r
      unfold sumSecondsForMonth at ihy ⊢
      dsimp only at ihy ⊢
      rw [show recomputeRows (ys ++ [r])
          = recomputeRows ys ++ [(recomputeStep (replayState recInit ys) r).2]
          from recomputeGo_concat recInit ys r,
        List.filter_append, replayState_concat]
      by_cases hcase : monthKey r.dia = monthKey d
      · cases hw : r.working with
        | true =>
            rw [show List.filter (fun row => decide (row.employee_id = e ∧
                  dateLE ⟨d.year, d.month, 1⟩ row.dia ∧
                  dateLE row.dia ⟨d.year, d.month, daysInMonth d.year d.month⟩ ∧
                  row.working = false))
                  [(recomputeStep (replayState recInit ys) r).2] = []
                from by simp [f5, hw], List.append_nil, ihy,
              recomputeStep_st_true _ _ hw]
            congr 1
            dsimp only
            rw [resetTotals_currentMonth, resetTotals_monthlySecs, hcase, if_pos rfl]
        | false =>
            have hwin := (month_window_iff r.dia d hvr hvd).mpr hcase
            have hpt : decide
                (((recomputeStep (replayState recInit ys) r).2).employee_id = e ∧
                 dateLE ⟨d.year, d.month, 1⟩
                   ((recomputeStep (replayState recInit ys) r).2).dia ∧
                 dateLE ((recomputeStep (replayState recInit ys) r).2).dia
                   ⟨d.year, d.month, daysInMonth d.year d.month⟩ ∧
                 ((recomputeStep (replayState recInit ys) r).2).working = false)
                  = true := by
              simp only [decide_eq_true_eq, f2, f3, f5]
              exact ⟨hre, hwin.1, hwin.2, hw⟩
            rw [show List.filter (fun row => decide (row.employee_id = e ∧
                  dateLE ⟨d.year, d.month, 1⟩ row.dia ∧
                  dateLE row.dia ⟨d.year, d.month, daysInMonth d.year d.month⟩ ∧
                  row.working = false))
                  [(recomputeStep (replayState recInit ys) r).2]
                = [(recomputeStep (replayState recInit ys) r).2]
              from by rw [List.filter_cons, hpt]; rfl]
            rw [latestById_append_max _ _ ?hmaxm]
            case hmaxm =>
              intro y hy
              have hy2 := List.mem_of_mem_filter hy
              obtain ⟨orig, ho, hid, -, -, -, -⟩ := mem_recomputeGo recInit ys y hy2
              rw [hid, f1]
              exact hcrossid orig ho
            have hnny := replayState_nonneg recInit ys ⟨le_refl 0, le_refl 0, le_refl 0⟩
            have hm0 : 0 ≤ (resetTotals (replayState recInit ys) r.dia).monthlySecs := by
              rw [resetTotals_monthlySecs]
              split
              · exact hnny.2.2
              · exact le_refl 0
            have hce := checkoutElapsed_nonneg
              (resetTotals (replayState recInit ys) r.dia).lastCheckIn (tsOf r.dia r.hora)
            have hsum : 0 ≤ (resetTotals (replayState recInit ys) r.dia).monthlySecs
                + checkoutElapsed (resetTotals (replayState recInit ys) r.dia).lastCheckIn
                    (tsOf r.dia r.hora) := by omega
            show timeToSeconds
                ((recomputeStep (replayState recInit ys) r).2).hores_mensuals
              = some (if ((recomputeStep (replayState recInit ys) r).1).currentMonth
                      = some (monthKey d)
                  then ((recomputeStep (replayState recInit ys) r).1).monthlySecs else 0)
            rw [recomputeStep_out_false _ _ hw, recomputeStep_st_false _ _ hw]
            dsimp only [setFields]
            rw [timeToSeconds_roundTrip_int _ hsum, resetTotals_currentMonth, hcase,
              if_pos rfl]
      · have hfo : List.filter (fun row => decide (row.employee_id = e ∧
            dateLE ⟨d.year, d.month, 1⟩ row.dia ∧
            dateLE row.dia ⟨d.year, d.month, daysInMonth d.year d.month⟩ ∧
            row.working = false)) (recomputeRows ys) = [] := by
          rw [List.filter_eq_nil_iff]
          intro x hx hc
          obtain ⟨orig, ho, -, -, hdia, -, -⟩ := mem_recomputeGo recInit ys x hx
          simp only [decide_eq_true_eq] at hc
          obtain ⟨-, hw1, hw2, -⟩ := hc
          rw [hdia] at hw1 hw2
          have hmx : monthKey orig.dia = monthKey d :=
            (month_window_iff orig.dia d (hval2 orig ho) hvd).mp ⟨hw1, hw2⟩
          exact hcase (month_between orig.dia r.dia d (hval2 orig ho) hvr hvd
            (hcross orig ho) hler hmx)
        have hpf : decide
            (((recomputeStep (replayState recInit ys) r).2).employee_id = e ∧
             dateLE ⟨d.year, d.month, 1⟩
               ((recomputeStep (replayState recInit ys) r).2).dia ∧
             dateLE ((recomputeStep (replayState recInit ys) r).2).dia
               ⟨d.year, d.month, daysInMonth d.year d.month⟩ ∧
             ((recomputeStep (replayState recInit ys) r).2).working = false)
              = false := by
          simp only [decide_eq_false_iff_not]
          intro hcontra
          obtain ⟨-, hw1, hw2, -⟩ := hcontra
          rw [f3] at hw1 hw2
          exact hcase ((month_window_iff r.dia d hvr hvd).mp ⟨hw1, hw2⟩)
        rw [hfo]
        rw [show List.filter (fun row => decide (row.employee_id = e ∧
              dateLE ⟨d.year, d.month, 1⟩ row.dia ∧
              dateLE row.dia ⟨d.year, d.month, daysInMonth d.year d.month⟩ ∧
              row.working = false))
              [(recomputeStep (replayState recInit ys) r).2] = []
            from by rw [List.filter_cons, hpf]; rfl, List.nil_append]
        rw [show latestById ([] : List FitxRow) = none from rfl]
        rw [step_state_currentMonth]
        rw [if_neg (by simp [hcase])]

/-- C10: for an employee whose table is exactly a Hours Accumulator
replay (check-out rows carry correct cumulative period totals), live
check-out from an open session writes DAILY and MONTHLY duration
fields equal to those a full replay of the extended event list assigns
to the new check-out row, and the replay leaves the existing rows
unchanged. (The WEEKLY field is excluded: the live path reads a
Sunday-start calendar-week window while the replay resets on ISO week
numbers, and the two can differ - see the counterexample.) -/
theorem live_checkout_day_month_refinement
    (employees : List Employee) (base : List FitxRow) (pin : String)
    (today : Date) (nowTime : Nat) (newId : Nat) (emp : Employee)
    (hfind : employees.find? (fun q => decide (q.pin_code = pin)) = some emp)
    (hemp : ∀ x ∈ base, x.employee_id = emp.employee_id)
    (hord : base.Pairwise (fun a b => dateKey a.dia ≤ dateKey b.dia))
    (hids : base.Pairwise (fun a b => a.id < b.id))
    (hle : ∀ x ∈ base, dateKey x.dia ≤ dateKey today)
    (hval : ∀ x ∈ base, validDate x.dia)
    (hvd : validDate today)
    (hne : base ≠ [])
    (hlw : (base.getLast hne).working = true)
    (hts : tsOf (base.getLast hne).dia (base.getLast hne).hora
      ≤ tsOf today nowTime) :
    ∃ newRow out,
      (postCheckinOut employees (recomputeRows base) pin today nowTime newId).db
        = recomputeRows base ++ [newRow] ∧
      newRow.working = false ∧
      recomputeRows (recomputeRows base ++ [newRow]) = recomputeRows base ++ [out] ∧
      out.hores_diaries = newRow.hores_diaries ∧
      out.hores_mensuals = newRow.hores_mensuals := by
  have hsplit : base = base.dropLast ++ [base.getLast hne] :=
    (List.dropLast_append_getLast hne).symm
  have hfilter : (recomputeRows base).filter
      (fun r => decide (r.employee_id = emp.employee_id)) = recomputeRows base := by
    rw [List.filter_eq_self]
    intro x hx
    obtain ⟨orig, ho, -, hxe, -, -, -⟩ := mem_recomputeGo recInit base x hx
    simp [hxe, hemp orig ho]
  have hpw : (recomputeRows base).Pairwise (fun a b => a.id < b.id) := by
    have h1 : (base.map (fun r => r.id)).Pairwise (fun a b => a < b) :=
      List.pairwise_map.mpr hids
    have h2 : ((recomputeGo recInit base).map (fun r => r.id)).Pairwise
        (fun a b => a < b) := by
      rw [recomputeGo_map_id]
      exact h1
    exact List.pairwise_map.mp h2
  have hgolast : recomputeRows base
      = recomputeRows base.dropLast
        ++ [(recomputeStep (replayState recInit base.dropLast) (base.getLast hne)).2] := by
    conv_lhs => rw [hsplit]
    exact recomputeGo_concat recInit base.dropLast (base.getLast hne)
  have hlatest : latestById ((recomputeRows base).filter
      (fun r => decide (r.employee_id = emp.employee_id)))
      = some ((recomputeStep (replayState recInit base.dropLast)
          (base.getLast hne)).2) := by
    rw [hfilter, latestById_getLast _ hpw, hgolast, List.getLast?_concat]
  obtain ⟨g1, g2, g3, g4, g5, g6⟩ :=
    recomputeStep_row_fields (replayState recInit base.dropLast) (base.getLast hne)
  have hws : ¬ ((recomputeStep (replayState recInit base.dropLast)
      (base.getLast hne)).2).working = false := by
    rw [g5, hlw]
    decide
  have hroute : (postCheckinOut employees (recomputeRows base) pin today
      nowTime newId).db
      = recomputeRows base ++ [⟨newId, emp.employee_id, today, nowTime, false, false,
          secondsToTimeJS (jsAdd
            (sumSecondsForDay (recomputeRows base) emp.employee_id today)
            (some (tsOf today nowTime
              - tsOf (base.getLast hne).dia (base.getLast hne).hora))),
          secondsToTimeJS (jsAdd
            (sumSecondsForWeek (recomputeRows base) emp.employee_id today)
            (some (tsOf today nowTime
              - tsOf (base.getLast hne).dia (base.getLast hne).hora))),
          secondsToTimeJS (jsAdd
            (sumSecondsForMonth (recomputeRows base) emp.employee_id today)
            (some (tsOf today nowTime
              - tsOf (base.getLast hne).dia (base.getLast hne).hora))),
          (base.getLast hne).vacances⟩] := by
    unfold postCheckinOut
    simp only [hfind, hlatest]
    rw [if_neg hws]
    simp only [g3, g4, g6]
  have hday := sumDay_replay emp.employee_id today base hemp hord hids hle hval hvd
  have hmonth := sumMonth_replay emp.employee_id today base hemp hord hids hle hval hvd
  have hSlast : (replayState recInit base).lastCheckIn
      = some (tsOf (base.getLast hne).dia (base.getLast hne).hora) := by
    conv_lhs => rw [hsplit]
    rw [replayState_concat, recomputeStep_st_true _ _ hlw]
  have hreplay_db : replayState recInit (recomputeRows base)
      = replayState recInit base := replayState_recomputeGo recInit base
  have hidem : recomputeGo recInit (recomputeRows base) = recomputeRows base :=
    recomputeGo_idem recInit base
  have hmax0 : max 0 (tsOf today nowTime
        - tsOf (base.getLast hne).dia (base.getLast hne).hora)
      = tsOf today nowTime
        - tsOf (base.getLast hne).dia (base.getLast hne).hora := by omega
  refine ⟨_, _, hroute, rfl,
    (recomputeGo_concat recInit (recomputeRows base) _).trans
      (by rw [hidem, hreplay_db]), ?_, ?_⟩
  · rw [recomputeStep_out_false _ _ rfl]
    dsimp only [setFields]
    rw [hday]
    dsimp only [jsAdd, secondsToTimeJS]
    rw [resetTotals_dailySecs, resetTotals_lastCheckIn, hSlast, checkoutElapsed_some,
      hmax0]
  · rw [recomputeStep_out_false _ _ rfl]
    dsimp only [setFields]
    rw [hmonth]
    dsimp only [jsAdd, secondsToTimeJS]
    rw [resetTotals_monthlySecs, resetTotals_lastCheckIn, hSlast, checkoutElapsed_some,
      hmax0]

theorem live_checkout_day_month_refinement_witness :
    (dbOpen ≠ [] ∧ (∀ x ∈ dbOpen, validDate x.dia) ∧ validDate ⟨2024, 1, 2⟩) ∧
    (∃ newRow out,
      (postCheckinOut employeesEx (recomputeRows dbOpen) "1111" ⟨2024, 1, 2⟩
          39600 2).db
        = recomputeRows dbOpen ++ [newRow] ∧
      newRow.working = false ∧
      recomputeRows (recomputeRows dbOpen ++ [newRow])
        = recomputeRows dbOpen ++ [out] ∧
      out.hores_diaries = newRow.hores_diaries ∧
      out.hores_mensuals = newRow.hores_mensuals) := by
  exact ⟨⟨by decide, by decide, by decide⟩,
    live_checkout_day_month_refinement employeesEx dbOpen "1111" ⟨2024, 1, 2⟩
      39600 2 ⟨1, "1111"⟩ rfl (by decide) (by decide) (by decide) (by decide)
      (by decide) (by decide) (by decide) (by decide) (by decide)⟩

end HRBackend
